import Mathlib

/-!
Verification of the OCR-services evaluation repository's response-normalization
layer (`src/ocr_services.py`, with the batch loop from `src/app.py`).

Python values that originate from JSON deserialization are modelled by the
`Json` inductive below; Python numbers are modelled by `Int` (numeric values
are only carried around, never computed with, in the code under study).
Vendor SDK/HTTP calls are modelled as oracle functions supplied as arguments;
a Python exception is modelled as the `.error` case of `Except String`.
-/

namespace OcrEval

/-- A JSON-like Python value: mapping, sequence, or scalar.  Mappings are
association lists with (as produced by `json` deserialization) unique keys. -/
inductive Json where
  | str (s : String)
  | num (n : Int)
  | bool (b : Bool)
  | null
  | arr (elems : List Json)
  | obj (fields : List (String × Json))
  deriving Repr

mutual
/-- Structural equality of JSON values (Python `==` on deserialized data). -/
def jsonBeq : Json → Json → Bool
  | .str a, .str b => a == b
  | .num a, .num b => a == b
  | .bool a, .bool b => a == b
  | .null, .null => true
  | .arr a, .arr b => jsonBeqList a b
  | .obj a, .obj b => jsonBeqFields a b
  | _, _ => false

/-- Elementwise equality of JSON sequences. -/
def jsonBeqList : List Json → List Json → Bool
  | [], [] => true
  | a :: as, b :: bs => jsonBeq a b && jsonBeqList as bs
  | _, _ => false

/-- Entrywise equality of JSON mappings. -/
def jsonBeqFields : List (String × Json) → List (String × Json) → Bool
  | [], [] => true
  | (k, v) :: as, (l, w) :: bs => k == l && jsonBeq v w && jsonBeqFields as bs
  | _, _ => false
end

instance : BEq Json := ⟨jsonBeq⟩

@[simp] theorem json_beq_def (a b : Json) : (a == b) = jsonBeq a b := rfl

/-- The fixed noise-field set of `_clean_textract_response`
(`fields_to_remove`, src/ocr_services.py lines 219-223). -/
def fieldsToRemove : List String :=
  ["Geometry", "BoundingBox", "Polygon", "Relationships",
   "RowIndex", "ColumnIndex", "RowSpan", "ColumnSpan",
   "CellGeometry", "TableGeometry", "TableBoundingBox", "TablePolygon"]

mutual
/-- `remove_fields` (src/ocr_services.py lines 226-242): on a mapping, delete
the keys in `fieldsToRemove` and recurse into the remaining values; on a
sequence, recurse into the items; return scalars unchanged. -/
def removeFields : Json → Json
  | .str s => .str s
  | .num n => .num n
  | .bool b => .bool b
  | .null => .null
  | .arr xs => .arr (removeFieldsList xs)
  | .obj fs => .obj (removeFieldsPairs fs)

/-- The sequence case of `remove_fields`, item by item. -/
def removeFieldsList : List Json → List Json
  | [] => []
  | x :: xs => removeFields x :: removeFieldsList xs

/-- The mapping case of `remove_fields`: entries whose key is in
`fieldsToRemove` are deleted, the other entries keep their key and have their
value processed recursively. -/
def removeFieldsPairs : List (String × Json) → List (String × Json)
  | [] => []
  | (k, v) :: rest =>
      if fieldsToRemove.contains k then removeFieldsPairs rest
      else (k, removeFields v) :: removeFieldsPairs rest
end

example : removeFields (.obj [("Geometry", .num 1), ("Text", .str "a")])
    = .obj [("Text", .str "a")] := by rfl

example : removeFields (.arr [.obj [("BoundingBox", .null), ("A", .obj [("Polygon", .num 2)])]])
    = .arr [.obj [("A", .obj [])]] := by rfl

/-- `_clean_textract_response` (src/ocr_services.py lines 205-253), at the level
of values: the `json.loads(json.dumps ...)` deep copy is value-preserving, so
the returned value is `remove_fields` of the argument's value.  (The heap-level
behaviour of the in-place mutation is modelled separately below.) -/
def cleanTextractResponse (response : Json) : Json :=
  removeFields response

/-- One step of a navigation path into a JSON value: a mapping key or a
sequence index. -/
inductive Step where
  | key (k : String)
  | idx (i : Nat)
  deriving Repr, DecidableEq

/-- Navigate a JSON value along a path of keys and indices. -/
def getPath : Json → List Step → Option Json
  | j, [] => some j
  | j, s :: p =>
    match s, j with
    | .key k, .obj fs =>
      match fs.lookup k with
      | some v => getPath v p
      | none => none
    | .idx i, .arr xs =>
      match xs[i]? with
      | some v => getPath v p
      | none => none
    | _, _ => none

/-- A path is clear when none of its mapping keys is a noise field. -/
def pathClear : List Step → Bool
  | [] => true
  | .key k :: p => !(fieldsToRemove.contains k) && pathClear p
  | .idx _ :: p => pathClear p

theorem lookup_cons_self {β : Type} (k : String) (v : β) (rest : List (String × β)) :
    ((k, v) :: rest).lookup k = some v := by
  simp [List.lookup]

theorem lookup_cons_ne {β : Type} {k k' : String} (v : β) (rest : List (String × β))
    (h : k ≠ k') : ((k', v) :: rest).lookup k = rest.lookup k := by
  simp [List.lookup, beq_false_of_ne h]

theorem lookup_removeFieldsPairs (fs : List (String × Json)) (k : String) :
    (removeFieldsPairs fs).lookup k =
      if fieldsToRemove.contains k then none else (fs.lookup k).map removeFields := by
  induction fs with
  | nil =>
    rw [removeFieldsPairs]
    cases h : fieldsToRemove.contains k <;> simp [h]
  | cons kv rest ih =>
    obtain ⟨k', v⟩ := kv
    by_cases hkk : k = k'
    · subst hkk
      by_cases hk : fieldsToRemove.contains k
      · rw [removeFieldsPairs, if_pos hk, ih, if_pos hk, if_pos hk]
      · rw [removeFieldsPairs, if_neg hk, lookup_cons_self, lookup_cons_self, if_neg hk]
        rfl
    · by_cases hk' : fieldsToRemove.contains k'
      · rw [removeFieldsPairs, if_pos hk', ih, lookup_cons_ne _ _ hkk]
      · rw [removeFieldsPairs, if_neg hk', lookup_cons_ne _ _ hkk, lookup_cons_ne _ _ hkk, ih]

theorem getElem?_removeFieldsList (xs : List Json) (i : Nat) :
    (removeFieldsList xs)[i]? = xs[i]?.map removeFields := by
  induction xs generalizing i with
  | nil => simp [removeFieldsList]
  | cons x xs ih =>
    cases i with
    | zero => simp [removeFieldsList]
    | succ n => simpa [removeFieldsList] using ih n

theorem getPath_removeFields (p : List Step) (x : Json) :
    getPath (removeFields x) p =
      if pathClear p then (getPath x p).map removeFields else none := by
  induction p generalizing x with
  | nil => simp [getPath, pathClear]
  | cons s p ih =>
    cases s with
    | key k =>
      cases x with
      | obj fs =>
        rw [removeFields]
        show (match (removeFieldsPairs fs).lookup k with
          | some v => getPath v p
          | none => none) = _
        rw [lookup_removeFieldsPairs]
        by_cases hk : fieldsToRemove.contains k
        · rw [if_pos hk]
          have hk' : k ∈ fieldsToRemove := by simpa using hk
          simp [getPath, pathClear, hk, hk']
        · rw [if_neg hk]
          have hk' : k ∉ fieldsToRemove := by simpa using hk
          cases hfs : fs.lookup k with
          | none => simp [getPath, pathClear, hk, hk', hfs]
          | some v => simp [getPath, pathClear, hk, hk', hfs, ih v]
      | str s' => simp [removeFields, getPath, pathClear]
      | num n => simp [removeFields, getPath, pathClear]
      | bool b => simp [removeFields, getPath, pathClear]
      | null => simp [removeFields, getPath, pathClear]
      | arr xs => simp [removeFields, getPath, pathClear]
    | idx i =>
      cases x with
      | arr xs =>
        rw [removeFields]
        show (match (removeFieldsList xs)[i]? with
          | some v => getPath v p
          | none => none) = _
        rw [getElem?_removeFieldsList]
        cases hxs : xs[i]? with
        | none => simp [getPath, pathClear, hxs]
        | some v => simp [getPath, pathClear, hxs, ih v]
      | str s' => simp [removeFields, getPath, pathClear]
      | num n => simp [removeFields, getPath, pathClear]
      | bool b => simp [removeFields, getPath, pathClear]
      | null => simp [removeFields, getPath, pathClear]
      | obj fs => simp [removeFields, getPath, pathClear]

/-- Scalar (non-container) JSON values. -/
def Json.isScalar : Json → Bool
  | .str _ => true
  | .num _ => true
  | .bool _ => true
  | .null => true
  | .arr _ => false
  | .obj _ => false

theorem removeFields_scalar (v : Json) (h : v.isScalar = true) :
    removeFields v = v := by
  cases v <;> simp_all [Json.isScalar, removeFields]

/-- **C1.** Sanitization deletes exactly the noise keys and nothing else: a
path survives `remove_fields` iff none of its keys is in `fields_to_remove`,
the value found there is the sanitized original value, and every scalar
(string/number/boolean/null) is left unchanged by sanitization. -/
theorem sanitize_removes_exactly_noise_fields :
    (∀ (x : Json) (p : List Step),
        getPath (cleanTextractResponse x) p =
          if pathClear p then (getPath x p).map removeFields else none)
    ∧ (∀ s, removeFields (.str s) = .str s)
    ∧ (∀ n, removeFields (.num n) = .num n)
    ∧ (∀ b, removeFields (.bool b) = .bool b)
    ∧ removeFields .null = .null := by
  refine ⟨fun x p => getPath_removeFields p x, fun s => rfl, fun n => rfl, fun b => rfl, rfl⟩

mutual
theorem removeFields_idem_aux : (x : Json) →
    removeFields (removeFields x) = removeFields x
  | .str s => rfl
  | .num n => rfl
  | .bool b => rfl
  | .null => rfl
  | .arr xs => by rw [removeFields, removeFields, removeFieldsList_idem_aux xs]
  | .obj fs => by rw [removeFields, removeFields, removeFieldsPairs_idem_aux fs]

theorem removeFieldsList_idem_aux : (xs : List Json) →
    removeFieldsList (removeFieldsList xs) = removeFieldsList xs
  | [] => rfl
  | x :: xs => by
      rw [removeFieldsList, removeFieldsList, removeFields_idem_aux x,
        removeFieldsList_idem_aux xs]

theorem removeFieldsPairs_idem_aux : (fs : List (String × Json)) →
    removeFieldsPairs (removeFieldsPairs fs) = removeFieldsPairs fs
  | [] => rfl
  | (k, v) :: rest => by
      by_cases hk : fieldsToRemove.contains k
      · rw [removeFieldsPairs, if_pos hk, removeFieldsPairs_idem_aux rest]
      · rw [removeFieldsPairs, if_neg hk, removeFieldsPairs, if_neg hk,
          removeFields_idem_aux v, removeFieldsPairs_idem_aux rest]
end

/-- **C2.** Sanitization is idempotent: re-sanitizing a sanitized payload
yields an identical structure, for every JSON-like value. -/
theorem sanitize_idempotent (x : Json) :
    cleanTextractResponse (cleanTextractResponse x) = cleanTextractResponse x :=
  removeFields_idem_aux x

/-! ### Python evaluation primitives

The adapter code uses `d.get`, `k in d`, `d[k]`, iteration and f-string
interpolation on deserialized JSON values.  They are modelled here with a
raised exception as the `.error` case of `Except String`. -/

/-- The single-quote character of Python `repr`. -/
def sq : String := String.singleton (Char.ofNat 39)

mutual
/-- Python `repr` of a JSON-derived value (as used when a container or quoted
string is interpolated into an f-string). -/
def pyRepr : Json → String
  | .str s => sq ++ s ++ sq
  | .num n => toString n
  | .bool b => if b then "True" else "False"
  | .null => "None"
  | .arr xs => "[" ++ pyReprList xs ++ "]"
  | .obj fs => "\x7b" ++ pyReprFields fs ++ "\x7d"

/-- Comma-separated `repr`s of sequence items. -/
def pyReprList : List Json → String
  | [] => ""
  | [x] => pyRepr x
  | x :: xs => pyRepr x ++ ", " ++ pyReprList xs

/-- Comma-separated `repr`s of mapping entries. -/
def pyReprFields : List (String × Json) → String
  | [] => ""
  | [(k, v)] => sq ++ k ++ sq ++ ": " ++ pyRepr v
  | (k, v) :: fs => sq ++ k ++ sq ++ ": " ++ pyRepr v ++ ", " ++ pyReprFields fs
end

/-- Python `str()` of a JSON-derived value, as interpolated into an f-string:
strings are bare, other values use their `repr`-like rendering. -/
def pyStr : Json → String
  | .str s => s
  | j => pyRepr j

/-- Python `j.get(k, default)`: mapping lookup with a default, raising
`AttributeError` when the receiver is not a mapping. -/
def dictGet (j : Json) (k : String) (dflt : Json) : Except String Json :=
  match j with
  | .obj fs => .ok ((fs.lookup k).getD dflt)
  | _ => .error "AttributeError: get"

/-- Python `k in j` for a string `k`: key membership for mappings, element
membership for sequences, substring test for strings, `TypeError` otherwise. -/
def pyIn (k : String) (j : Json) : Except String Bool :=
  match j with
  | .obj fs => .ok (fs.any (fun kv => kv.1 == k))
  | .arr xs => .ok (xs.any (fun x => x == Json.str k))
  | .str s => .ok (decide (k = "") || decide ((s.splitOn k).length > 1))
  | _ => .error "TypeError: argument is not iterable"

/-- Python `j[k]` for a string key: mapping lookup raising `KeyError` when the
key is missing, `TypeError` on a non-mapping. -/
def pyIndex (j : Json) (k : String) : Except String Json :=
  match j with
  | .obj fs =>
    match fs.lookup k with
    | some v => .ok v
    | none => .error ("KeyError: " ++ k)
  | _ => .error "TypeError: indices must be integers"

/-- Python `for x in j`: sequence elements, mapping keys, string characters,
`TypeError` on numbers and `None`. -/
def pyIter (j : Json) : Except String (List Json) :=
  match j with
  | .arr xs => .ok xs
  | .obj fs => .ok (fs.map (fun kv => Json.str kv.1))
  | .str s => .ok (s.data.map (fun c => Json.str (String.singleton c)))
  | _ => .error "TypeError: object is not iterable"

/-! ### The expense-summary formatter

Lines 104-126 (PDF loop body) and 174-196 (image branch) of
src/ocr_services.py are the same code duplicated; it is modelled once. -/

/-- `field.get('Type', \x7b\x7d).get('Text', 'Unknown')`
(src/ocr_services.py lines 111, 124, 181, 194). -/
def getTypeText (field : Json) : Except String String :=
  match dictGet field "Type" (.obj []) with
  | .error e => .error e
  | .ok t =>
    match dictGet t "Text" (.str "Unknown") with
    | .error e => .error e
    | .ok x => .ok (pyStr x)

/-- `field.get('ValueDetection', \x7b\x7d).get('Text', 'N/A')`
(src/ocr_services.py lines 112, 125, 182, 195). -/
def getValueText (field : Json) : Except String String :=
  match dictGet field "ValueDetection" (.obj []) with
  | .error e => .error e
  | .ok v =>
    match dictGet v "Text" (.str "N/A") with
    | .error e => .error e
    | .ok x => .ok (pyStr x)

/-- The `for field in ...` loops (lines 110-113, 123-126, 180-183, 193-196):
append one `<indent><type>: <value>` line per expense field to the
accumulated summary. -/
def formatFieldsInto (indent acc : String) : List Json → Except String String
  | [] => .ok acc
  | field :: rest =>
    match getTypeText field with
    | .error e => .error e
    | .ok t =>
      match getValueText field with
      | .error e => .error e
      | .ok v => formatFieldsInto indent (acc ++ indent ++ t ++ ": " ++ v ++ "\n") rest

/-- The `for item_idx, item in enumerate(...)` loop (lines 120-126 /
190-196); `iIdx` is the running 0-based index of `enumerate`. -/
def formatItemsInto (acc : String) (iIdx : Nat) : List Json → Except String String
  | [] => .ok acc
  | item :: rest =>
    let acc := acc ++ "    Item " ++ toString (iIdx + 1) ++ ":\n"
    match pyIn "LineItemExpenseFields" item with
    | .error e => .error e
    | .ok hasF =>
      if hasF then
        match pyIndex item "LineItemExpenseFields" with
        | .error e => .error e
        | .ok fsVal =>
          match pyIter fsVal with
          | .error e => .error e
          | .ok fs =>
            match formatFieldsInto "      " acc fs with
            | .error e => .error e
            | .ok acc => formatItemsInto acc (iIdx + 1) rest
      else formatItemsInto acc (iIdx + 1) rest

/-- The `for group_idx, group in enumerate(...)` loop (lines 117-126 /
187-196). -/
def formatGroupsInto (acc : String) (gIdx : Nat) : List Json → Except String String
  | [] => .ok acc
  | group :: rest =>
    let acc := acc ++ "  Line Item Group " ++ toString (gIdx + 1) ++ ":\n"
    match pyIn "LineItems" group with
    | .error e => .error e
    | .ok hasLI =>
      if hasLI then
        match pyIndex group "LineItems" with
        | .error e => .error e
        | .ok liVal =>
          match pyIter liVal with
          | .error e => .error e
          | .ok items =>
            match formatItemsInto acc 0 items with
            | .error e => .error e
            | .ok acc => formatGroupsInto acc (gIdx + 1) rest
      else formatGroupsInto acc (gIdx + 1) rest

/-- One `Document <n>:` block (lines 104-126 / 174-196): summary fields under
a `  Summary Fields:` header, then line-item groups, items and their fields
at increasing indentation. -/
def formatDocInto (acc : String) (docIdx : Nat) (doc : Json) :
    Except String String :=
  let acc := acc ++ "Document " ++ toString (docIdx + 1) ++ ":\n"
  match pyIn "SummaryFields" doc with
  | .error e => .error e
  | .ok hasSF =>
    let sfResult : Except String String :=
      if hasSF then
        match pyIndex doc "SummaryFields" with
        | .error e => .error e
        | .ok sfsVal =>
          match pyIter sfsVal with
          | .error e => .error e
          | .ok sfs => formatFieldsInto "    " (acc ++ "  Summary Fields:\n") sfs
      else .ok acc
    match sfResult with
    | .error e => .error e
    | .ok acc =>
      match pyIn "LineItemGroups" doc with
      | .error e => .error e
      | .ok hasLIG =>
        if hasLIG then
          match pyIndex doc "LineItemGroups" with
          | .error e => .error e
          | .ok gsVal =>
            match pyIter gsVal with
            | .error e => .error e
            | .ok groups => formatGroupsInto acc 0 groups
        else .ok acc

/-- The `for doc_idx, doc in enumerate(...)` loop (lines 104 / 174). -/
def formatDocsInto (acc : String) (dIdx : Nat) : List Json → Except String String
  | [] => .ok acc
  | doc :: rest =>
    match formatDocInto acc dIdx doc with
    | .error e => .error e
    | .ok acc => formatDocsInto acc (dIdx + 1) rest

/-- One page section of the multi-page summary (lines 98-126): pages whose
cleaned response has an `ExpenseDocuments` key get a `--- PAGE <n> ---`
header followed by their document blocks; other pages contribute nothing. -/
def formatPageInto (acc : String) (pageNum : Nat) (response : Json) :
    Except String String :=
  match pyIn "ExpenseDocuments" response with
  | .error e => .error e
  | .ok hasED =>
    if hasED then
      let acc := acc ++ "--- PAGE " ++ toString pageNum ++ " ---\n"
      match pyIndex response "ExpenseDocuments" with
      | .error e => .error e
      | .ok docsVal =>
        match pyIter docsVal with
        | .error e => .error e
        | .ok docs => formatDocsInto acc 0 docs
    else .ok acc

/-- The `for page_num, response in all_responses` loop (lines 98-126). -/
def formatPagesInto (acc : String) : List (Nat × Json) → Except String String
  | [] => .ok acc
  | (n, r) :: rest =>
    match formatPageInto acc n r with
    | .error e => .error e
    | .ok acc => formatPagesInto acc rest

/-- The line-concatenation loop of the `detect_document_text` fallback
(lines 147-151): for each block whose `BlockType` equals `"LINE"`, append its
`Text` (default `""`) and a newline. -/
def extractLinesInto (acc : String) : List Json → Except String String
  | [] => .ok acc
  | item :: rest =>
    match dictGet item "BlockType" .null with
    | .error e => .error e
    | .ok bt =>
      if bt == Json.str "LINE" then
        match dictGet item "Text" (.str "") with
        | .error e => .error e
        | .ok (.str s) => extractLinesInto (acc ++ s ++ "\n") rest
        | .ok _ => .error "TypeError: can only concatenate str to str"
      else extractLinesInto acc rest

/-- The fallback summary (lines 146-155): header plus the extracted lines of
`cleaned.get("Blocks", [])`. -/
def detectTextSummary (cleaned : Json) : Except String String :=
  match dictGet cleaned "Blocks" (.arr []) with
  | .error e => .error e
  | .ok blocks =>
    match pyIter blocks with
    | .error e => .error e
    | .ok items =>
      match extractLinesInto "" items with
      | .error e => .error e
      | .ok extracted =>
        .ok ("AWS Textract Analysis Summary (DetectDocumentText):\n\nExtracted Text:\n"
          ++ extracted)

/-! ### The Textract entry point -/

/-- Opaque document or image bytes. -/
abbrev Bytes := List Nat

/-- A Python exception escaping a statement.  `ImportError` is distinguished
because the PDF branch of `aws_textract_ocr` handles it separately. -/
inductive PyErr where
  | importError (msg : String)
  | exn (msg : String)
  deriving Repr, BEq, DecidableEq

/-- The two AWS Textract vendor calls used by `aws_textract_ocr`, as oracles
from document bytes to a parsed JSON response or a raised exception. -/
structure TextractClient where
  analyzeExpense : Bytes → Except String Json
  detectDocumentText : Bytes → Except String Json

/-- `convert_pdf_to_image_bytes` (src/ocr_services.py lines 14-49).  The
external rasterizer `pdf2image.convert_from_path` is an oracle; its PNG
re-encoding of each page is part of the oracle's output.  An empty page list
yields `None`; an `ImportError` is re-raised with a fixed message; any other
exception is re-raised wrapped in `Error converting PDF to images:`. -/
def convert_pdf_to_image_bytes (rasterize : Except PyErr (List Bytes)) :
    Except PyErr (Option (List (Nat × Bytes))) :=
  match rasterize with
  | .error (.importError _) =>
      .error (.importError
        "PDF processing requires pdf2image library. Install with: pip install pdf2image")
  | .error (.exn m) => .error (.exn ("Error converting PDF to images: " ++ m))
  | .ok images =>
      if images.isEmpty then .ok none
      else .ok (some (images.enum.map (fun pb => (pb.1 + 1, pb.2))))

/-- The per-page loop of the PDF branch (lines 84-93): call `analyze_expense`
on each page's bytes in order, sanitize each response, and collect
`(page_num, cleaned_response)` pairs; a raised exception aborts the loop. -/
def processAllPages (analyze : Bytes → Except String Json) :
    List (Nat × Bytes) → Except String (List (Nat × Json))
  | [] => .ok []
  | (n, b) :: rest =>
    match analyze b with
    | .error e => .error e
    | .ok response =>
      match processAllPages analyze rest with
      | .error e => .error e
      | .ok restResponses =>
        .ok ((n, cleanTextractResponse response) :: restResponses)

/-- Lines 96-127: fold the page sections onto the multi-page header. -/
def formatCombinedSummary (allResponses : List (Nat × Json)) :
    Except String String :=
  formatPagesInto "AWS Textract Analysis Summary (Multiple Pages):\n\n" allResponses

/-- The message of the `UnboundLocalError` raised by `return summary`
(line 199) when `summary` was never assigned. -/
def unboundLocalSummary : String :=
  "local variable summary referenced before assignment"

/-- `aws_textract_ocr` (lines 52-202) on a PDF document.  `rasterize` stands
for the external pdf2image call and `wholeDoc` for the raw file contents read
by the fallback.  An exception in the rasterization, the per-page loop or the
summary formatting triggers the `detect_document_text` fallback on the whole
document (lines 133-155); an `ImportError` returns directly (lines 131-132);
an exception in the fallback reaches the outer handler (lines 201-202). -/
def awsTextractPdfPrimary (client : TextractClient)
    (rasterize : Except PyErr (List Bytes)) : Except PyErr String :=
  match convert_pdf_to_image_bytes rasterize with
  | .error e => .error e
  | .ok none => .ok "Failed to extract images from PDF"
  | .ok (some pages) =>
    match processAllPages client.analyzeExpense pages with
    | .error e => .error (.exn e)
    | .ok allResponses =>
      match formatCombinedSummary allResponses with
      | .error e => .error (.exn e)
      | .ok s => .ok s

/-- The fallback body (lines 135-155): read the whole document, call
`detect_document_text` on it once, and summarize the sanitized response. -/
def awsTextractFallback (client : TextractClient) (wholeDoc : Bytes) :
    Except String String :=
  match client.detectDocumentText wholeDoc with
  | .error e => .error e
  | .ok response => detectTextSummary (cleanTextractResponse response)

def aws_textract_ocr_pdf (client : TextractClient)
    (rasterize : Except PyErr (List Bytes)) (wholeDoc : Bytes) : String :=
  match awsTextractPdfPrimary client rasterize with
  | .ok s => s
  | .error (.importError m) => "PDF processing error: " ++ m
  | .error (.exn _) =>
    match awsTextractFallback client wholeDoc with
    | .ok s => s
    | .error e => "Error processing with AWS Textract: " ++ e

/-- `aws_textract_ocr` (lines 156-199) on a non-PDF document: sanitize the
`analyze_expense` response and summarize it.  When the sanitized response has
no `ExpenseDocuments` key, the Python local `summary` is never assigned, so
`return summary` (line 199) raises `UnboundLocalError`, which the outer
handler (lines 201-202) renders as the provider error string. -/
def aws_textract_ocr_image (client : TextractClient) (doc : Bytes) : String :=
  let body : Except String String :=
    match client.analyzeExpense doc with
    | .error e => .error e
    | .ok response =>
      let cleaned := cleanTextractResponse response
      match pyIn "ExpenseDocuments" cleaned with
      | .error e => .error e
      | .ok hasED =>
        if hasED then
          match pyIndex cleaned "ExpenseDocuments" with
          | .error e => .error e
          | .ok docsVal =>
            match pyIter docsVal with
            | .error e => .error e
            | .ok docs =>
              formatDocsInto "AWS Textract Analysis Summary (AnalyzeExpense):\n\n" 0 docs
        else .error unboundLocalSummary
  match body with
  | .ok s => s
  | .error e => "Error processing with AWS Textract: " ++ e

/-! ### C6: defaulting of partially-missing optional fields -/

/-- The field is a mapping whose `Type.Text` is absent: either no `Type` key,
or a `Type` mapping without a `Text` key. -/
def typeTextAbsent : Json → Bool
  | .obj fs =>
    match fs.lookup "Type" with
    | none => true
    | some (.obj tf) => (tf.lookup "Text").isNone
    | some _ => false
  | _ => false

/-- The field is a mapping whose `ValueDetection.Text` is absent. -/
def valueTextAbsent : Json → Bool
  | .obj fs =>
    match fs.lookup "ValueDetection" with
    | none => true
    | some (.obj vf) => (vf.lookup "Text").isNone
    | some _ => false
  | _ => false

/-- **C6.** For every expense field (summary and line-item fields share the
same extraction code): a field whose `Type.Text` is absent renders its type as
`Unknown`, and a field whose `ValueDetection.Text` is absent renders its value
as `N/A` — in both cases with a successful (`.ok`) result, i.e. no exception
is raised for partially-missing optional fields. -/
theorem missing_optional_fields_default (field : Json) :
    (typeTextAbsent field = true → getTypeText field = .ok "Unknown")
    ∧ (valueTextAbsent field = true → getValueText field = .ok "N/A") := by
  constructor
  · intro h
    cases field with
    | obj fs =>
      rw [typeTextAbsent] at h
      rw [getTypeText]
      cases hty : fs.lookup "Type" with
      | none => simp [dictGet, hty, pyStr]
      | some t =>
        rw [hty] at h
        cases t with
        | obj tf =>
          have htf : tf.lookup "Text" = none := by
            cases htf' : tf.lookup "Text" <;> simp [htf'] at h ⊢
          simp [dictGet, hty, htf, pyStr]
        | str s => simp at h
        | num n => simp at h
        | bool b => simp at h
        | null => simp at h
        | arr xs => simp at h
    | str s => simp [typeTextAbsent] at h
    | num n => simp [typeTextAbsent] at h
    | bool b => simp [typeTextAbsent] at h
    | null => simp [typeTextAbsent] at h
    | arr xs => simp [typeTextAbsent] at h
  · intro h
    cases field with
    | obj fs =>
      rw [valueTextAbsent] at h
      rw [getValueText]
      cases hty : fs.lookup "ValueDetection" with
      | none => simp [dictGet, hty, pyStr]
      | some t =>
        rw [hty] at h
        cases t with
        | obj vf =>
          have hvf : vf.lookup "Text" = none := by
            cases hvf' : vf.lookup "Text" <;> simp [hvf'] at h ⊢
          simp [dictGet, hty, hvf, pyStr]
        | str s => simp at h
        | num n => simp at h
        | bool b => simp at h
        | null => simp at h
        | arr xs => simp at h
    | str s => simp [valueTextAbsent] at h
    | num n => simp [valueTextAbsent] at h
    | bool b => simp [valueTextAbsent] at h
    | null => simp [valueTextAbsent] at h
    | arr xs => simp [valueTextAbsent] at h

/-- Witness for C6 at a concrete field that has a `Type` mapping without
`Text` and no `ValueDetection` at all. -/
theorem missing_optional_fields_default_witness :
    getTypeText (.obj [("Type", .obj [("Confidence", .num 99)])]) = .ok "Unknown"
    ∧ getValueText (.obj [("Type", .obj [("Confidence", .num 99)])]) = .ok "N/A" :=
  ⟨(missing_optional_fields_default _).1 (by rfl),
   (missing_optional_fields_default _).2 (by rfl)⟩

/-! ### C7: the plain-text adapter concatenates exactly the LINE blocks -/

/-- Well-formedness of one block for the plain-text loop: the block is a
mapping and, if its `BlockType` is `"LINE"`, its `Text` (default `""`) is a
string. -/
def lineBlockOk : Json → Bool
  | .obj fs =>
    if jsonBeq ((fs.lookup "BlockType").getD .null) (Json.str "LINE") then
      match (fs.lookup "Text").getD (.str "") with
      | .str _ => true
      | _ => false
    else true
  | _ => false

/-- Concatenation of a list of strings in order. -/
def concatStrings : List String → String
  | [] => ""
  | s :: rest => s ++ concatStrings rest

/-- Spec-side text extraction, following the spec's words: the `Text` of
exactly those blocks whose `BlockType` is `LINE`, in sequence order, with a
newline appended after each. -/
def lineTextSpec (blocks : List Json) : String :=
  concatStrings (blocks.filterMap (fun b =>
    match b with
    | .obj fs =>
      if jsonBeq ((fs.lookup "BlockType").getD .null) (Json.str "LINE") then
        some (pyStr ((fs.lookup "Text").getD (.str "")) ++ "\n")
      else none
    | _ => none))

theorem extractLinesInto_ok (blocks : List Json) (acc : String)
    (hwf : ∀ b ∈ blocks, lineBlockOk b = true) :
    extractLinesInto acc blocks = .ok (acc ++ lineTextSpec blocks) := by
  induction blocks generalizing acc with
  | nil => simp [extractLinesInto, lineTextSpec, concatStrings, String.append_empty]
  | cons b bs ih =>
    have hb := hwf b (List.mem_cons_self b bs)
    have hbs : ∀ x ∈ bs, lineBlockOk x = true :=
      fun x hx => hwf x (List.mem_cons_of_mem b hx)
    cases b with
    | obj fs =>
      rw [lineBlockOk] at hb
      by_cases hline : jsonBeq ((fs.lookup "BlockType").getD .null) (Json.str "LINE") = true
      · rw [if_pos hline] at hb
        cases htext : (fs.lookup "Text").getD (.str "") with
        | str s =>
          rw [show extractLinesInto acc (Json.obj fs :: bs)
                = extractLinesInto (acc ++ s ++ "\n") bs by
              simp [extractLinesInto, dictGet, hline, htext]]
          rw [ih _ hbs]
          simp [lineTextSpec, hline, htext, pyStr, concatStrings, String.append_assoc]
        | num n => rw [htext] at hb; simp at hb
        | bool c => rw [htext] at hb; simp at hb
        | null => rw [htext] at hb; simp at hb
        | arr xs => rw [htext] at hb; simp at hb
        | obj ofs => rw [htext] at hb; simp at hb
      · have hline' : jsonBeq ((fs.lookup "BlockType").getD .null) (Json.str "LINE") = false :=
          by simpa using hline
        rw [show extractLinesInto acc (Json.obj fs :: bs) = extractLinesInto acc bs by
            simp [extractLinesInto, dictGet, hline']]
        rw [ih _ hbs]
        simp [lineTextSpec, hline']
    | str s => simp [lineBlockOk] at hb
    | num n => simp [lineBlockOk] at hb
    | bool c => simp [lineBlockOk] at hb
    | null => simp [lineBlockOk] at hb
    | arr xs => simp [lineBlockOk] at hb

/-- **C7.** The plain-text adapter concatenates, in sequence order, the
`Text` of exactly those blocks whose `BlockType` is `LINE`, appending a
newline after each. -/
theorem line_blocks_concatenated (blocks : List Json)
    (hwf : blocks.all lineBlockOk = true) :
    extractLinesInto "" blocks = .ok (lineTextSpec blocks) := by
  have h := extractLinesInto_ok blocks "" (by simpa [List.all_eq_true] using hwf)
  simpa using h

/-- Witness for C7: the spec's end-to-end scenario 3 — the block sequence
`LINE "Hello"`, `WORD "ignored"`, `LINE "World"` extracts to
`"Hello\nWorld\n"`. -/
theorem line_blocks_concatenated_witness :
    extractLinesInto "" [
        .obj [("BlockType", .str "LINE"), ("Text", .str "Hello")],
        .obj [("BlockType", .str "WORD"), ("Text", .str "ignored")],
        .obj [("BlockType", .str "LINE"), ("Text", .str "World")]]
      = .ok "Hello\nWorld\n" :=
  (line_blocks_concatenated _ (by rfl)).trans (by rfl)

/-! ### C10: image-path responses without an ExpenseDocuments key -/

/-- **C10.** For a non-PDF input whose sanitized `analyze_expense` response
contains no `ExpenseDocuments` key, the image branch never assigns the
`summary` local, so `return summary` raises `UnboundLocalError` and the
adapter returns the generic provider error string rather than an empty or
partial summary. -/
theorem missing_expense_documents_unbound_summary (client : TextractClient)
    (doc : Bytes) (resp : Json)
    (hresp : client.analyzeExpense doc = .ok resp)
    (hno : pyIn "ExpenseDocuments" (cleanTextractResponse resp) = .ok false) :
    aws_textract_ocr_image client doc
      = "Error processing with AWS Textract: " ++ unboundLocalSummary := by
  simp [aws_textract_ocr_image, hresp, hno]

/-- A client whose expense response carries only metadata, no
`ExpenseDocuments`. -/
def noExpenseClient : TextractClient where
  analyzeExpense := fun _ => .ok (.obj [("DocumentMetadata", .obj [("Pages", .num 1)])])
  detectDocumentText := fun _ => .ok (.obj [])

/-- Witness for C10 at a concrete metadata-only response. -/
theorem missing_expense_documents_unbound_summary_witness :
    aws_textract_ocr_image noExpenseClient [0]
      = "Error processing with AWS Textract: " ++ unboundLocalSummary :=
  missing_expense_documents_unbound_summary noExpenseClient [0]
    (.obj [("DocumentMetadata", .obj [("Pages", .num 1)])]) (by rfl) (by rfl)

/-! ### C3: per-page invocation and ascending page order -/

theorem processAllPages_ok (analyze : Bytes → Except String Json) (f : Bytes → Json)
    (hok : ∀ b, analyze b = .ok (f b)) (pages : List (Nat × Bytes)) :
    processAllPages analyze pages
      = .ok (pages.map (fun p => (p.1, cleanTextractResponse (f p.2)))) := by
  induction pages with
  | nil => simp [processAllPages]
  | cons p rest ih =>
    obtain ⟨n, b⟩ := p
    simp [processAllPages, hok b, ih]

/-- **C3.** For a multi-page PDF on the per-page expense path:
`convert_pdf_to_image_bytes` numbers the rasterized pages `1..N` in
rasterization order, that page-number sequence is strictly ascending, the
per-page loop invokes `analyze_expense` exactly once per page — yielding one
sanitized response per page, tagged with its 1-based index, in the same
order — and the merged summary is the fold of exactly this
page-index-ordered list. -/
theorem pdf_pages_processed_in_ascending_order (client : TextractClient)
    (images : List Bytes) (hne : images ≠ [])
    (f : Bytes → Json) (hok : ∀ b, client.analyzeExpense b = .ok (f b)) :
    convert_pdf_to_image_bytes (.ok images)
        = .ok (some (images.enum.map (fun pb => (pb.1 + 1, pb.2))))
    ∧ (images.enum.map (fun pb => (pb.1 + 1, pb.2))).map Prod.fst
        = List.range' 1 images.length
    ∧ (List.range' 1 images.length).Pairwise (· < ·)
    ∧ processAllPages client.analyzeExpense
          (images.enum.map (fun pb => (pb.1 + 1, pb.2)))
        = .ok (images.enum.map (fun pb => (pb.1 + 1, cleanTextractResponse (f pb.2))))
    ∧ ∀ wholeDoc s,
        formatCombinedSummary
            (images.enum.map (fun pb => (pb.1 + 1, cleanTextractResponse (f pb.2))))
          = .ok s →
        aws_textract_ocr_pdf client (.ok images) wholeDoc = s := by
  have hempty : images.isEmpty = false := by
    cases images with
    | nil => exact absurd rfl hne
    | cons a l => rfl
  have hconv : convert_pdf_to_image_bytes (.ok images)
      = .ok (some (images.enum.map (fun pb => (pb.1 + 1, pb.2)))) := by
    simp [convert_pdf_to_image_bytes, hempty]
  have hproc : processAllPages client.analyzeExpense
        (images.enum.map (fun pb => (pb.1 + 1, pb.2)))
      = .ok (images.enum.map (fun pb => (pb.1 + 1, cleanTextractResponse (f pb.2)))) := by
    rw [processAllPages_ok client.analyzeExpense f hok, List.map_map]
    rfl
  refine ⟨hconv, ?_, List.pairwise_lt_range' 1 images.length, hproc, ?_⟩
  · rw [List.map_map]
    have hcomp : (Prod.fst ∘ fun pb : Nat × Bytes => (pb.1 + 1, pb.2))
        = (fun i => 1 + i) ∘ Prod.fst := by
      funext pb
      simp [Nat.add_comm]
    rw [hcomp, ← List.map_map, List.enum_map_fst, ← List.range'_eq_map_range]
  · intro wholeDoc s hs
    simp [aws_textract_ocr_pdf, awsTextractPdfPrimary, hconv, hproc, hs]

/-- A client whose expense responses always carry one Acme summary field. -/
def acmeClient : TextractClient where
  analyzeExpense := fun _ => .ok (.obj [("ExpenseDocuments", .arr [
    .obj [("SummaryFields", .arr [
      .obj [("Type", .obj [("Text", .str "VENDOR_NAME")]),
            ("ValueDetection", .obj [("Text", .str "Acme")])]]),
          ("Geometry", .null)]])])
  detectDocumentText := fun _ => .ok (.obj [("Blocks", .arr [])])

/-- Witness for C3: a 2-page PDF produces the `--- PAGE 1 ---` section before
the `--- PAGE 2 ---` section in the merged summary. -/
theorem pdf_pages_processed_in_ascending_order_witness :
    aws_textract_ocr_pdf acmeClient (.ok [[0], [1]]) [9]
      = "AWS Textract Analysis Summary (Multiple Pages):\n\n--- PAGE 1 ---\nDocument 1:\n  Summary Fields:\n    VENDOR_NAME: Acme\n--- PAGE 2 ---\nDocument 1:\n  Summary Fields:\n    VENDOR_NAME: Acme\n" :=
  (pdf_pages_processed_in_ascending_order acmeClient [[0], [1]] (by simp)
    (fun _ => .obj [("ExpenseDocuments", .arr [
      .obj [("SummaryFields", .arr [
        .obj [("Type", .obj [("Text", .str "VENDOR_NAME")]),
              ("ValueDetection", .obj [("Text", .str "Acme")])]]),
            ("Geometry", .null)]])])
    (fun _ => rfl)).2.2.2.2 [9] _ (by rfl)

/-! ### C4: one-shot fallback to the plain-text API -/

/-- **C4.** When the per-page structured (expense) extraction of a PDF fails
with an exception, the adapter falls back exactly once to
`detect_document_text` applied to the whole document and returns its
summarized result; if the fallback also fails, the provider-tagged error
string naming AWS Textract and the cause is returned, with no further retry:
the result is a function of the single whole-document fallback response
alone. -/
theorem expense_failure_falls_back_once_to_detect_text (client : TextractClient)
    (rasterize : Except PyErr (List Bytes)) (wholeDoc : Bytes) (e : String)
    (hfail : awsTextractPdfPrimary client rasterize = .error (.exn e)) :
    (∀ r s, client.detectDocumentText wholeDoc = .ok r →
        detectTextSummary (cleanTextractResponse r) = .ok s →
        aws_textract_ocr_pdf client rasterize wholeDoc = s)
    ∧ (∀ e2, client.detectDocumentText wholeDoc = .error e2 →
        aws_textract_ocr_pdf client rasterize wholeDoc
          = "Error processing with AWS Textract: " ++ e2)
    ∧ (∀ client2 : TextractClient,
        client2.detectDocumentText wholeDoc = client.detectDocumentText wholeDoc →
        awsTextractPdfPrimary client2 rasterize = .error (.exn e) →
        aws_textract_ocr_pdf client2 rasterize wholeDoc
          = aws_textract_ocr_pdf client rasterize wholeDoc) := by
  refine ⟨?_, ?_, ?_⟩
  · intro r s hr hs
    simp [aws_textract_ocr_pdf, hfail, awsTextractFallback, hr, hs]
  · intro e2 he2
    simp [aws_textract_ocr_pdf, hfail, awsTextractFallback, he2]
  · intro client2 hdet hfail2
    simp [aws_textract_ocr_pdf, hfail, hfail2, awsTextractFallback, hdet]

/-- A client whose expense API always raises and whose plain-text API also
raises. -/
def doubleFailClient : TextractClient where
  analyzeExpense := fun _ => .error "expense backend down"
  detectDocumentText := fun _ => .error "detect backend down"

/-- Witness for C4: with both APIs failing, the PDF path surfaces the
provider-tagged error naming the fallback's cause. -/
theorem expense_failure_falls_back_once_to_detect_text_witness :
    aws_textract_ocr_pdf doubleFailClient (.ok [[0]]) [7]
      = "Error processing with AWS Textract: detect backend down" :=
  (expense_failure_falls_back_once_to_detect_text doubleFailClient (.ok [[0]]) [7]
    "expense backend down" (by rfl)).2.1 "detect backend down" (by rfl)

/-! ### C5: the rendering shape of the three summary paths -/

/-- The value is a mapping with key `k`. -/
def hasKey (j : Json) (k : String) : Bool :=
  match j with
  | .obj fs => fs.any (fun kv => kv.1 == k)
  | _ => false

/-- The sequence stored under `k`, `[]` when absent or not a sequence. -/
def getArr (j : Json) (k : String) : List Json :=
  match j with
  | .obj fs =>
    match fs.lookup k with
    | some (.arr xs) => xs
    | _ => []
  | _ => []

/-- Well-formed expense field: a mapping whose `Type` and `ValueDetection`
values, when present, are mappings (so the `.get` chains cannot raise). -/
def fieldOk : Json → Bool
  | .obj fs =>
    (match fs.lookup "Type" with
     | none => true
     | some (.obj _) => true
     | some _ => false)
    && (match fs.lookup "ValueDetection" with
     | none => true
     | some (.obj _) => true
     | some _ => false)
  | _ => false

/-- Well-formed line item: a mapping whose `LineItemExpenseFields`, when
present, is a sequence of well-formed fields. -/
def itemOk : Json → Bool
  | .obj fs =>
    match fs.lookup "LineItemExpenseFields" with
    | none => true
    | some (.arr fields) => fields.all fieldOk
    | some _ => false
  | _ => false

/-- Well-formed line-item group: a mapping whose `LineItems`, when present,
is a sequence of well-formed items. -/
def groupOk : Json → Bool
  | .obj fs =>
    match fs.lookup "LineItems" with
    | none => true
    | some (.arr items) => items.all itemOk
    | some _ => false
  | _ => false

/-- Well-formed expense document: a mapping whose `SummaryFields` and
`LineItemGroups`, when present, are sequences of well-formed fields and
groups. -/
def docOk : Json → Bool
  | .obj fs =>
    (match fs.lookup "SummaryFields" with
     | none => true
     | some (.arr fields) => fields.all fieldOk
     | some _ => false)
    && (match fs.lookup "LineItemGroups" with
     | none => true
     | some (.arr groups) => groups.all groupOk
     | some _ => false)
  | _ => false

/-- Well-formed expense response: a mapping whose `ExpenseDocuments`, when
present, is a sequence of well-formed documents. -/
def respOk : Json → Bool
  | .obj fs =>
    match fs.lookup "ExpenseDocuments" with
    | none => true
    | some (.arr docs) => docs.all docOk
    | some _ => false
  | _ => false

/-- Indexed ordered concatenation: render each element with its 0-based
position, in order. -/
def concatIdx (f : Nat → Json → String) (i : Nat) : List Json → String
  | [] => ""
  | x :: rest => f i x ++ concatIdx f (i + 1) rest

/-- Declarative type text of a field (`Unknown` when `Type.Text` is absent). -/
def typeTextSpec (field : Json) : String :=
  match field with
  | .obj fs =>
    match (fs.lookup "Type").getD (.obj []) with
    | .obj tf => pyStr ((tf.lookup "Text").getD (.str "Unknown"))
    | v => pyStr v
  | _ => "Unknown"

/-- Declarative value text of a field (`N/A` when `ValueDetection.Text` is
absent). -/
def valueTextSpec (field : Json) : String :=
  match field with
  | .obj fs =>
    match (fs.lookup "ValueDetection").getD (.obj []) with
    | .obj vf => pyStr ((vf.lookup "Text").getD (.str "N/A"))
    | v => pyStr v
  | _ => "N/A"

/-- Declarative `<indent><type>: <value>` line. -/
def fieldLineSpec (indent : String) (field : Json) : String :=
  indent ++ typeTextSpec field ++ ": " ++ valueTextSpec field ++ "\n"

/-- Declarative `    Item <n>:` block. -/
def itemBlockSpec (iIdx : Nat) (item : Json) : String :=
  "    Item " ++ toString (iIdx + 1) ++ ":\n"
    ++ (if hasKey item "LineItemExpenseFields" then
          concatStrings ((getArr item "LineItemExpenseFields").map (fieldLineSpec "      "))
        else "")

/-- Declarative `  Line Item Group <n>:` block. -/
def groupBlockSpec (gIdx : Nat) (group : Json) : String :=
  "  Line Item Group " ++ toString (gIdx + 1) ++ ":\n"
    ++ (if hasKey group "LineItems" then
          concatIdx itemBlockSpec 0 (getArr group "LineItems")
        else "")

/-- Declarative `Document <n>:` block: summary fields first, then line-item
groups, each as nested indented blocks. -/
def docBlockSpec (dIdx : Nat) (doc : Json) : String :=
  "Document " ++ toString (dIdx + 1) ++ ":\n"
    ++ (if hasKey doc "SummaryFields" then
          "  Summary Fields:\n"
            ++ concatStrings ((getArr doc "SummaryFields").map (fieldLineSpec "    "))
        else "")
    ++ (if hasKey doc "LineItemGroups" then
          concatIdx groupBlockSpec 0 (getArr doc "LineItemGroups")
        else "")

/-- Declarative page section: a `--- PAGE <n> ---` header followed by the
document blocks, or nothing when the response has no `ExpenseDocuments`. -/
def pageSectionSpec (pageNum : Nat) (response : Json) : String :=
  if hasKey response "ExpenseDocuments" then
    "--- PAGE " ++ toString pageNum ++ " ---\n"
      ++ concatIdx docBlockSpec 0 (getArr response "ExpenseDocuments")
  else ""

/-- Declarative multi-page PDF summary: one page section per
`(page_num, response)` pair, in list order. -/
def multiPageSummarySpec (rs : List (Nat × Json)) : String :=
  "AWS Textract Analysis Summary (Multiple Pages):\n\n"
    ++ concatStrings (rs.map (fun pr => pageSectionSpec pr.1 pr.2))

/-- Declarative image-input summary: the document blocks directly after the
header, with no page header line. -/
def imageSummarySpec (cleaned : Json) : String :=
  "AWS Textract Analysis Summary (AnalyzeExpense):\n\n"
    ++ concatIdx docBlockSpec 0 (getArr cleaned "ExpenseDocuments")

/-- Declarative plain-text fallback summary: only the extracted free-form
text after the header, with no page header and no document blocks. -/
def fallbackSummarySpec (cleaned : Json) : String :=
  "AWS Textract Analysis Summary (DetectDocumentText):\n\nExtracted Text:\n"
    ++ lineTextSpec (getArr cleaned "Blocks")

theorem hasKey_eq_isSome (fs : List (String × Json)) (k : String) :
    hasKey (.obj fs) k = (fs.lookup k).isSome := by
  induction fs with
  | nil => simp [hasKey]
  | cons kv rest ih =>
    obtain ⟨k', v⟩ := kv
    by_cases hkk : k = k'
    · subst hkk
      simp [hasKey, lookup_cons_self]
    · have h1 : (k' == k) = false := beq_false_of_ne (Ne.symm hkk)
      have h2 : ((k', v) :: rest).lookup k = rest.lookup k := lookup_cons_ne v rest hkk
      simp only [hasKey, List.any_cons, h1, Bool.false_or, h2]
      simpa [hasKey] using ih

theorem getTypeText_ok (field : Json) (h : fieldOk field = true) :
    getTypeText field = .ok (typeTextSpec field) := by
  cases field with
  | obj fs =>
    rw [fieldOk] at h
    rw [getTypeText, typeTextSpec]
    cases hty : fs.lookup "Type" with
    | none => simp [dictGet, hty]
    | some t =>
      rw [hty] at h
      cases t <;> simp_all [dictGet]
  | str s => simp [fieldOk] at h
  | num n => simp [fieldOk] at h
  | bool b => simp [fieldOk] at h
  | null => simp [fieldOk] at h
  | arr xs => simp [fieldOk] at h

theorem getValueText_ok (field : Json) (h : fieldOk field = true) :
    getValueText field = .ok (valueTextSpec field) := by
  cases field with
  | obj fs =>
    rw [fieldOk] at h
    rw [getValueText, valueTextSpec]
    cases hv : fs.lookup "ValueDetection" with
    | none => simp [dictGet, hv]
    | some t =>
      rw [hv] at h
      cases t <;> simp_all [dictGet]
  | str s => simp [fieldOk] at h
  | num n => simp [fieldOk] at h
  | bool b => simp [fieldOk] at h
  | null => simp [fieldOk] at h
  | arr xs => simp [fieldOk] at h

theorem formatFieldsInto_ok (indent : String) (fields : List Json) (acc : String)
    (h : fields.all fieldOk = true) :
    formatFieldsInto indent acc fields
      = .ok (acc ++ concatStrings (fields.map (fieldLineSpec indent))) := by
  induction fields generalizing acc with
  | nil => simp [formatFieldsInto, concatStrings, String.append_empty]
  | cons field rest ih =>
    rw [List.all_cons, Bool.and_eq_true] at h
    rw [formatFieldsInto, getTypeText_ok field h.1, getValueText_ok field h.1]
    show formatFieldsInto indent
        (acc ++ indent ++ typeTextSpec field ++ ": " ++ valueTextSpec field ++ "\n") rest = _
    rw [ih _ h.2]
    simp [concatStrings, fieldLineSpec, String.append_assoc]

theorem pyIn_obj (k : String) (fs : List (String × Json)) :
    pyIn k (.obj fs) = .ok (hasKey (.obj fs) k) := rfl

theorem formatItemsInto_ok (items : List Json) (acc : String) (i : Nat)
    (h : items.all itemOk = true) :
    formatItemsInto acc i items = .ok (acc ++ concatIdx itemBlockSpec i items) := by
  induction items generalizing acc i with
  | nil => simp [formatItemsInto, concatIdx, String.append_empty]
  | cons item rest ih =>
    rw [List.all_cons, Bool.and_eq_true] at h
    obtain ⟨h1, h2⟩ := h
    cases item with
    | obj fs =>
      rw [itemOk] at h1
      cases hlf : fs.lookup "LineItemExpenseFields" with
      | none =>
        have hk : hasKey (.obj fs) "LineItemExpenseFields" = false := by
          rw [hasKey_eq_isSome, hlf]; rfl
        simp only [formatItemsInto, pyIn_obj, hk]
        rw [ih _ _ h2]
        simp [concatIdx, itemBlockSpec, hk, String.append_assoc, String.append_empty]
      | some v =>
        rw [hlf] at h1
        cases v with
        | arr fields =>
          have hk : hasKey (.obj fs) "LineItemExpenseFields" = true := by
            rw [hasKey_eq_isSome, hlf]; rfl
          simp only [formatItemsInto, pyIn_obj, hk, pyIndex, hlf, pyIter]
          rw [formatFieldsInto_ok "      " fields
            (acc ++ "    Item " ++ toString (i + 1) ++ ":\n") h1]
          show formatItemsInto _ (i + 1) rest = _
          rw [ih _ _ h2]
          simp [concatIdx, itemBlockSpec, hk, getArr, hlf,
            String.append_assoc, String.append_empty]
        | str s => simp at h1
        | num n => simp at h1
        | bool b => simp at h1
        | null => simp at h1
        | obj ofs => simp at h1
    | str s => simp [itemOk] at h1
    | num n => simp [itemOk] at h1
    | bool b => simp [itemOk] at h1
    | null => simp [itemOk] at h1
    | arr xs => simp [itemOk] at h1

theorem formatGroupsInto_ok (groups : List Json) (acc : String) (i : Nat)
    (h : groups.all groupOk = true) :
    formatGroupsInto acc i groups = .ok (acc ++ concatIdx groupBlockSpec i groups) := by
  induction groups generalizing acc i with
  | nil => simp [formatGroupsInto, concatIdx, String.append_empty]
  | cons group rest ih =>
    rw [List.all_cons, Bool.and_eq_true] at h
    obtain ⟨h1, h2⟩ := h
    cases group with
    | obj fs =>
      rw [groupOk] at h1
      cases hli : fs.lookup "LineItems" with
      | none =>
        have hk : hasKey (.obj fs) "LineItems" = false := by
          rw [hasKey_eq_isSome, hli]; rfl
        simp only [formatGroupsInto, pyIn_obj, hk]
        rw [ih _ _ h2]
        simp [concatIdx, groupBlockSpec, hk, String.append_assoc, String.append_empty]
      | some v =>
        rw [hli] at h1
        cases v with
        | arr items =>
          have hk : hasKey (.obj fs) "LineItems" = true := by
            rw [hasKey_eq_isSome, hli]; rfl
          simp only [formatGroupsInto, pyIn_obj, hk, pyIndex, hli, pyIter]
          rw [formatItemsInto_ok items
            (acc ++ "  Line Item Group " ++ toString (i + 1) ++ ":\n") 0 h1]
          show formatGroupsInto _ (i + 1) rest = _
          rw [ih _ _ h2]
          simp [concatIdx, groupBlockSpec, hk, getArr, hli,
            String.append_assoc, String.append_empty]
        | str s => simp at h1
        | num n => simp at h1
        | bool b => simp at h1
        | null => simp at h1
        | obj ofs => simp at h1
    | str s => simp [groupOk] at h1
    | num n => simp [groupOk] at h1
    | bool b => simp [groupOk] at h1
    | null => simp [groupOk] at h1
    | arr xs => simp [groupOk] at h1

theorem formatDocInto_ok (doc : Json) (acc : String) (dIdx : Nat)
    (h : docOk doc = true) :
    formatDocInto acc dIdx doc = .ok (acc ++ docBlockSpec dIdx doc) := by
  cases doc with
  | obj fs =>
    rw [docOk, Bool.and_eq_true] at h
    obtain ⟨h1, h2⟩ := h
    cases hsf : fs.lookup "SummaryFields" with
    | none =>
      have hksf : hasKey (.obj fs) "SummaryFields" = false := by
        rw [hasKey_eq_isSome, hsf]; rfl
      cases hlig : fs.lookup "LineItemGroups" with
      | none =>
        have hklig : hasKey (.obj fs) "LineItemGroups" = false := by
          rw [hasKey_eq_isSome, hlig]; rfl
        simp only [formatDocInto, pyIn_obj, hksf, hklig, Bool.false_eq_true, if_false]
        simp [docBlockSpec, hksf, hklig, ← String.append_assoc, String.append_empty]
      | some v =>
        rw [hlig] at h2
        cases v with
        | arr groups =>
          have hklig : hasKey (.obj fs) "LineItemGroups" = true := by
            rw [hasKey_eq_isSome, hlig]; rfl
          simp only [formatDocInto, pyIn_obj, hksf, hklig, pyIndex, hlig, pyIter,
            Bool.false_eq_true, if_false, if_true]
          rw [formatGroupsInto_ok groups
            (acc ++ "Document " ++ toString (dIdx + 1) ++ ":\n") 0 h2]
          simp [docBlockSpec, hksf, hklig, getArr, hlig,
            ← String.append_assoc, String.append_empty]
        | str s => simp at h2
        | num n => simp at h2
        | bool b => simp at h2
        | null => simp at h2
        | obj ofs => simp at h2
    | some v =>
      rw [hsf] at h1
      cases v with
      | arr fields =>
        have hksf : hasKey (.obj fs) "SummaryFields" = true := by
          rw [hasKey_eq_isSome, hsf]; rfl
        have hfmt := formatFieldsInto_ok "    " fields
          (acc ++ "Document " ++ toString (dIdx + 1) ++ ":\n" ++ "  Summary Fields:\n") h1
        cases hlig : fs.lookup "LineItemGroups" with
        | none =>
          have hklig : hasKey (.obj fs) "LineItemGroups" = false := by
            rw [hasKey_eq_isSome, hlig]; rfl
          simp only [formatDocInto, pyIn_obj, hksf, hklig, pyIndex, hsf, pyIter,
            Bool.false_eq_true, if_false, if_true, hfmt]
          simp [docBlockSpec, hksf, hklig, getArr, hsf,
            ← String.append_assoc, String.append_empty]
        | some w =>
          rw [hlig] at h2
          cases w with
          | arr groups =>
            have hklig : hasKey (.obj fs) "LineItemGroups" = true := by
              rw [hasKey_eq_isSome, hlig]; rfl
            simp only [formatDocInto, pyIn_obj, hksf, hklig, pyIndex, hsf, hlig, pyIter,
              if_true, hfmt]
            rw [formatGroupsInto_ok groups
              ((acc ++ "Document " ++ toString (dIdx + 1) ++ ":\n" ++ "  Summary Fields:\n")
                ++ concatStrings (fields.map (fieldLineSpec "    "))) 0 h2]
            simp [docBlockSpec, hksf, hklig, getArr, hsf, hlig,
              ← String.append_assoc, String.append_empty]
          | str s => simp at h2
          | num n => simp at h2
          | bool b => simp at h2
          | null => simp at h2
          | obj ofs => simp at h2
      | str s => simp at h1
      | num n => simp at h1
      | bool b => simp at h1
      | null => simp at h1
      | obj ofs => simp at h1
  | str s => simp [docOk] at h
  | num n => simp [docOk] at h
  | bool b => simp [docOk] at h
  | null => simp [docOk] at h
  | arr xs => simp [docOk] at h

theorem formatDocsInto_ok (docs : List Json) (acc : String) (i : Nat)
    (h : docs.all docOk = true) :
    formatDocsInto acc i docs = .ok (acc ++ concatIdx docBlockSpec i docs) := by
  induction docs generalizing acc i with
  | nil => simp [formatDocsInto, concatIdx, String.append_empty]
  | cons doc rest ih =>
    rw [List.all_cons, Bool.and_eq_true] at h
    rw [formatDocsInto, formatDocInto_ok doc acc i h.1]
    show formatDocsInto _ (i + 1) rest = _
    rw [ih _ _ h.2]
    simp [concatIdx, String.append_assoc]

theorem formatPageInto_ok (response : Json) (acc : String) (pageNum : Nat)
    (h : respOk response = true) :
    formatPageInto acc pageNum response
      = .ok (acc ++ pageSectionSpec pageNum response) := by
  cases response with
  | obj fs =>
    rw [respOk] at h
    cases hed : fs.lookup "ExpenseDocuments" with
    | none =>
      have hk : hasKey (.obj fs) "ExpenseDocuments" = false := by
        rw [hasKey_eq_isSome, hed]; rfl
      simp only [formatPageInto, pyIn_obj, hk]
      simp [pageSectionSpec, hk, String.append_empty]
    | some v =>
      rw [hed] at h
      cases v with
      | arr docs =>
        have hk : hasKey (.obj fs) "ExpenseDocuments" = true := by
          rw [hasKey_eq_isSome, hed]; rfl
        simp only [formatPageInto, pyIn_obj, hk, pyIndex, hed, pyIter]
        rw [formatDocsInto_ok docs
          (acc ++ "--- PAGE " ++ toString pageNum ++ " ---\n") 0 h]
        simp [pageSectionSpec, hk, getArr, hed, String.append_assoc]
      | str s => simp at h
      | num n => simp at h
      | bool b => simp at h
      | null => simp at h
      | obj ofs => simp at h
  | str s => simp [respOk] at h
  | num n => simp [respOk] at h
  | bool b => simp [respOk] at h
  | null => simp [respOk] at h
  | arr xs => simp [respOk] at h

theorem formatPagesInto_ok (rs : List (Nat × Json)) (acc : String)
    (h : rs.all (fun pr => respOk pr.2) = true) :
    formatPagesInto acc rs
      = .ok (acc ++ concatStrings (rs.map (fun pr => pageSectionSpec pr.1 pr.2))) := by
  induction rs generalizing acc with
  | nil => simp [formatPagesInto, concatStrings, String.append_empty]
  | cons pr rest ih =>
    rw [List.all_cons, Bool.and_eq_true] at h
    obtain ⟨n, r⟩ := pr
    rw [formatPagesInto, formatPageInto_ok r acc n h.1]
    show formatPagesInto _ rest = _
    rw [ih _ h.2]
    simp [concatStrings, String.append_assoc]

/-- Well-formed plain-text response: a mapping whose `Blocks`, when present,
is a sequence of well-formed blocks. -/
def blocksOk : Json → Bool
  | .obj fs =>
    match fs.lookup "Blocks" with
    | none => true
    | some (.arr blocks) => blocks.all lineBlockOk
    | some _ => false
  | _ => false

/-- `sub` occurs at the head of `s`. -/
def leadsWith : List Char → List Char → Bool
  | _, [] => true
  | [], _ :: _ => false
  | c :: cs, d :: ds => (c == d) && leadsWith cs ds

/-- `sub` occurs somewhere inside `s`. -/
def occursIn (s sub : List Char) : Bool :=
  match s with
  | [] => leadsWith [] sub
  | _ :: rest => leadsWith s sub || occursIn rest sub

/-- String containment test. -/
def strContains (s sub : String) : Bool :=
  occursIn s.data sub.data

/-- **C5 (counterexample).** The claim says every result renders a
`--- PAGE <index> ---` header line per page, including single-page
image-input results; but the image branch renders its document blocks with
no page header at all: the text `--- PAGE` occurs nowhere in this
single-page image-input output. -/
theorem formatter_page_header_counterexample :
    aws_textract_ocr_image acmeClient [0]
      = "AWS Textract Analysis Summary (AnalyzeExpense):\n\nDocument 1:\n  Summary Fields:\n    VENDOR_NAME: Acme\n"
    ∧ strContains (aws_textract_ocr_image acmeClient [0]) "--- PAGE" = false :=
  ⟨by rfl, by rfl⟩

/-- **C5 (amended).** The formatter renders, in the multi-page PDF path, a
`--- PAGE <index> ---` header line per page (in list order), then per
document a `Document <n>:` block listing summary fields as indented
`<type>: <value>` lines under a `  Summary Fields:` header, then line-item
groups as nested indented blocks; the single-page image-input path renders
the same document blocks with no page header; and the plain-text fallback
renders only the free-form extracted text after its header, with no page
header and no document blocks. -/
theorem formatter_rendering_shape :
    (∀ (rs : List (Nat × Json)), rs.all (fun pr => respOk pr.2) = true →
        formatCombinedSummary rs = .ok (multiPageSummarySpec rs))
    ∧ (∀ (client : TextractClient) (doc : Bytes) (resp : Json),
        client.analyzeExpense doc = .ok resp →
        respOk (cleanTextractResponse resp) = true →
        hasKey (cleanTextractResponse resp) "ExpenseDocuments" = true →
        aws_textract_ocr_image client doc
          = imageSummarySpec (cleanTextractResponse resp))
    ∧ (∀ cleaned : Json, blocksOk cleaned = true →
        detectTextSummary cleaned = .ok (fallbackSummarySpec cleaned)) := by
  refine ⟨?_, ?_, ?_⟩
  · intro rs h
    rw [formatCombinedSummary, formatPagesInto_ok rs _ h]
    rfl
  · intro client doc resp hresp hok hkey
    cases hc : cleanTextractResponse resp with
    | obj cfs =>
      rw [hc] at hok hkey
      cases hlk : cfs.lookup "ExpenseDocuments" with
      | none =>
        rw [hasKey_eq_isSome, hlk] at hkey
        simp at hkey
      | some v =>
        rw [respOk, hlk] at hok
        cases v with
        | arr docs =>
          simp only [aws_textract_ocr_image, hresp, hc, pyIn_obj, hkey, if_true,
            pyIndex, hlk, pyIter]
          rw [formatDocsInto_ok docs
            "AWS Textract Analysis Summary (AnalyzeExpense):\n\n" 0 hok]
          simp [imageSummarySpec, getArr, hc, hlk]
        | str s => simp at hok
        | num n => simp at hok
        | bool b => simp at hok
        | null => simp at hok
        | obj ofs => simp at hok
    | str s => rw [hc] at hok; simp [respOk] at hok
    | num n => rw [hc] at hok; simp [respOk] at hok
    | bool b => rw [hc] at hok; simp [respOk] at hok
    | null => rw [hc] at hok; simp [respOk] at hok
    | arr xs => rw [hc] at hok; simp [respOk] at hok
  · intro cleaned hb
    cases cleaned with
    | obj cfs =>
      rw [blocksOk] at hb
      cases hlk : cfs.lookup "Blocks" with
      | none =>
        simp only [detectTextSummary, dictGet, hlk, Option.getD_none]
        simp [fallbackSummarySpec, getArr, hlk, lineTextSpec, concatStrings,
          extractLinesInto, pyIter, String.append_empty]
      | some v =>
        rw [hlk] at hb
        cases v with
        | arr blocks =>
          simp only [detectTextSummary, dictGet, hlk, Option.getD_some, pyIter]
          rw [extractLinesInto_ok blocks "" (by simpa [List.all_eq_true] using hb)]
          simp [fallbackSummarySpec, getArr, hlk]
        | str s => simp at hb
        | num n => simp at hb
        | bool b => simp at hb
        | null => simp at hb
        | obj ofs => simp at hb
    | str s => simp [blocksOk] at hb
    | num n => simp [blocksOk] at hb
    | bool b => simp [blocksOk] at hb
    | null => simp [blocksOk] at hb
    | arr xs => simp [blocksOk] at hb

/-- Witness for C5 (amended): one concrete instance of each of the three
rendering shapes. -/
theorem formatter_rendering_shape_witness :
    formatCombinedSummary [(1, Json.obj [("ExpenseDocuments", .arr [])])]
      = .ok "AWS Textract Analysis Summary (Multiple Pages):\n\n--- PAGE 1 ---\n"
    ∧ aws_textract_ocr_image acmeClient [0]
      = "AWS Textract Analysis Summary (AnalyzeExpense):\n\nDocument 1:\n  Summary Fields:\n    VENDOR_NAME: Acme\n"
    ∧ detectTextSummary
        (.obj [("Blocks", .arr [.obj [("BlockType", .str "LINE"), ("Text", .str "Hi")]])])
      = .ok "AWS Textract Analysis Summary (DetectDocumentText):\n\nExtracted Text:\nHi\n" :=
  ⟨(formatter_rendering_shape.1 [(1, Json.obj [("ExpenseDocuments", .arr [])])]
      (by rfl)).trans (by rfl),
   (formatter_rendering_shape.2.1 acmeClient [0]
      (.obj [("ExpenseDocuments", .arr [
        .obj [("SummaryFields", .arr [
          .obj [("Type", .obj [("Text", .str "VENDOR_NAME")]),
                ("ValueDetection", .obj [("Text", .str "Acme")])]]),
              ("Geometry", .null)]])])
      (by rfl) (by rfl) (by rfl)).trans (by rfl),
   (formatter_rendering_shape.2.2
      (.obj [("Blocks", .arr [.obj [("BlockType", .str "LINE"), ("Text", .str "Hi")]])])
      (by rfl)).trans (by rfl)⟩

/-! ### C8: missing credentials and per-provider isolation -/

/-- An HTTP response as seen through the `requests` library: status code, raw
text, and the parsed body that `.json()` returns (`.error` when parsing
raises). -/
structure HttpResponse where
  statusCode : Nat
  text : String
  jsonBody : Except String Json

/-- Python truthiness of an `os.getenv` result: `if not api_key` is taken for
an unset or empty variable. -/
def falsyEnv : Option String → Bool
  | none => true
  | some s => s.isEmpty

/-- `landing_ai_ocr` (src/ocr_services.py lines 256-305).  `env` models
`os.getenv`, `fileExt` is the lower-cased extension of the selected file,
`post` models the `requests.post` call on the prepared request (file reading
included; `.error` is a raised exception), and `dumps` models
`json.dumps(result, indent=2)`. -/
def landing_ai_ocr (env : String → Option String) (fileExt : String)
    (post : Except String HttpResponse) (dumps : Json → String) : String :=
  let body : Except String String :=
    if falsyEnv (env "LANDING_AI_API_KEY") then
      .ok "Landing AI credentials not configured in .env file"
    else if fileExt == ".jpg" || fileExt == ".jpeg" || fileExt == ".png"
        || fileExt == ".pdf" then
      match post with
      | .error e => .error e
      | .ok resp =>
        if resp.statusCode = 200 then
          match resp.jsonBody with
          | .error e => .error e
          | .ok result => .ok (dumps result)
        else
          .ok ("Landing AI API error: " ++ toString resp.statusCode ++ " - " ++ resp.text)
    else .ok ("Unsupported file type for Landing AI: " ++ fileExt)
  match body with
  | .ok s => s
  | .error e => "Error processing with Landing AI: " ++ e

/-- One iteration of the `for page in result['pages']` loop of `mistral_ocr`
(src/ocr_services.py lines 388-403). -/
def mistralPage (acc : String) (page : Json) : Except String String :=
  match dictGet page "index" (.num 0) with
  | .error e => .error e
  | .ok idx =>
    let acc := acc ++ "--- PAGE " ++ pyStr idx ++ " ---\n"
    match pyIn "dimensions" page with
    | .error e => .error e
    | .ok hasDim =>
      let dimStep : Except String String :=
        if hasDim then
          match pyIndex page "dimensions" with
          | .error e => .error e
          | .ok dims =>
            match dictGet dims "width" (.str "N/A") with
            | .error e => .error e
            | .ok w =>
              match dictGet dims "height" (.str "N/A") with
              | .error e => .error e
              | .ok hgt =>
                match dictGet dims "dpi" (.str "N/A") with
                | .error e => .error e
                | .ok d =>
                  .ok (acc ++ "Dimensions: " ++ pyStr w ++ "x" ++ pyStr hgt
                    ++ " (DPI: " ++ pyStr d ++ ")\n")
        else .ok acc
      match dimStep with
      | .error e => .error e
      | .ok acc =>
        match pyIn "images" page with
        | .error e => .error e
        | .ok hasImgs =>
          let imgStep : Except String String :=
            if hasImgs then
              match pyIndex page "images" with
              | .error e => .error e
              | .ok imgsVal =>
                match pyIter imgsVal with
                | .error e => .error e
                | .ok imgs => .ok (acc ++ "Images: " ++ toString imgs.length ++ "\n")
            else .ok acc
          match imgStep with
          | .error e => .error e
          | .ok acc =>
            match pyIn "markdown" page with
            | .error e => .error e
            | .ok hasMd =>
              if hasMd then
                match pyIndex page "markdown" with
                | .error e => .error e
                | .ok md => .ok (acc ++ "\nText Content:\n" ++ pyStr md ++ "\n\n")
              else .ok acc

/-- The whole `for page in result['pages']` loop. -/
def mistralPagesInto (acc : String) : List Json → Except String String
  | [] => .ok acc
  | page :: rest =>
    match mistralPage acc page with
    | .error e => .error e
    | .ok acc => mistralPagesInto acc rest

/-- `mistral_ocr` (src/ocr_services.py lines 307-409).  The oracles are as in
`landing_ai_ocr` (base64 encoding and payload assembly are part of the `post`
oracle's boundary). -/
def mistral_ocr (env : String → Option String) (fileExt : String)
    (post : Except String HttpResponse) (dumps : Json → String) : String :=
  let body : Except String String :=
    if falsyEnv (env "MISTRAL_API_KEY") then
      .ok "Mistral OCR credentials not configured in .env file"
    else if !(fileExt == ".pdf" || fileExt == ".jpg" || fileExt == ".jpeg"
        || fileExt == ".png") then
      .ok ("Unsupported file type for Mistral OCR: " ++ fileExt)
    else
      match post with
      | .error e => .error e
      | .ok resp =>
        if resp.statusCode ≠ 200 then
          .ok ("Mistral OCR API error: " ++ toString resp.statusCode ++ " - " ++ resp.text)
        else
          match resp.jsonBody with
          | .error e => .error e
          | .ok result =>
            let formatted := dumps result
            match pyIn "pages" result with
            | .error e => .error e
            | .ok hasPages =>
              let sres : Except String String :=
                if hasPages then
                  match pyIndex result "pages" with
                  | .error e => .error e
                  | .ok pagesVal =>
                    match pyIter pagesVal with
                    | .error e => .error e
                    | .ok pages => mistralPagesInto "Mistral OCR Analysis Summary:\n\n" pages
                else .ok "Mistral OCR Analysis Summary:\n\n"
              match sres with
              | .error e => .error e
              | .ok summary => .ok (summary ++ "\n\nFull Response:\n" ++ formatted)
  match body with
  | .ok s => s
  | .error e => "Error processing with Mistral OCR: " ++ e

/-- The per-service loop of `process_document` (src/app.py lines 59-95): each
requested service's result is computed by that service's call alone and
stored under the service's name. -/
def process_document (run : String → String) (services : List String) :
    List (String × String) :=
  services.map (fun s => (s, run s))

/-- `p` occurs at the head of `s`. -/
def strStarts (s p : String) : Bool :=
  leadsWith s.data p.data

/-- **C8.** Requesting a provider whose credential is unset or empty returns
that provider's `not configured` result string — which begins with the
provider's name — without raising; and in a multi-provider batch each
provider's entry depends only on that provider's own call, so one provider's
error result never changes another provider's result. -/
theorem missing_credential_reported_and_isolated :
    (∀ (env : String → Option String) (fileExt : String)
        (post : Except String HttpResponse) (dumps : Json → String),
        falsyEnv (env "LANDING_AI_API_KEY") = true →
        landing_ai_ocr env fileExt post dumps
          = "Landing AI credentials not configured in .env file")
    ∧ strStarts "Landing AI credentials not configured in .env file" "Landing AI" = true
    ∧ (∀ (env : String → Option String) (fileExt : String)
        (post : Except String HttpResponse) (dumps : Json → String),
        falsyEnv (env "MISTRAL_API_KEY") = true →
        mistral_ocr env fileExt post dumps
          = "Mistral OCR credentials not configured in .env file")
    ∧ strStarts "Mistral OCR credentials not configured in .env file" "Mistral OCR" = true
    ∧ (∀ (run1 run2 : String → String) (services : List String) (s : String),
        run1 s = run2 s →
        (process_document run1 services).lookup s
          = (process_document run2 services).lookup s)
    ∧ (∀ (run : String → String) (services : List String) (s : String),
        s ∈ services → (s, run s) ∈ process_document run services) := by
  refine ⟨?_, by rfl, ?_, by rfl, ?_, ?_⟩
  · intro env fileExt post dumps h
    simp [landing_ai_ocr, h]
  · intro env fileExt post dumps h
    simp [mistral_ocr, h]
  · intro run1 run2 services s h
    induction services with
    | nil => rfl
    | cons t rest ih =>
      show ((t, run1 t) :: process_document run1 rest).lookup s
        = ((t, run2 t) :: process_document run2 rest).lookup s
      by_cases hst : s = t
      · subst hst
        rw [lookup_cons_self, lookup_cons_self, h]
      · rw [lookup_cons_ne _ _ hst, lookup_cons_ne _ _ hst, ih]
  · intro run services s hs
    exact List.mem_map_of_mem _ hs

/-- Witness for C8: one concrete instantiation of each quantified conjunct. -/
theorem missing_credential_reported_and_isolated_witness :
    landing_ai_ocr (fun _ => none) ".png" (.error "boom") (fun _ => "")
      = "Landing AI credentials not configured in .env file"
    ∧ mistral_ocr (fun _ => some "") ".pdf" (.error "boom") (fun _ => "")
      = "Mistral OCR credentials not configured in .env file"
    ∧ (process_document (fun _ => "A") ["P", "Q"]).lookup "P"
        = (process_document (fun p => if p == "P" then "A" else "B") ["P", "Q"]).lookup "P"
    ∧ ("Q", "fine") ∈ process_document
        (fun s => if s == "Q" then "fine" else "err") ["P", "Q"] :=
  ⟨missing_credential_reported_and_isolated.1 _ ".png" (.error "boom") (fun _ => "") (by rfl),
   missing_credential_reported_and_isolated.2.2.1 _ ".pdf" (.error "boom") (fun _ => "") (by rfl),
   missing_credential_reported_and_isolated.2.2.2.2.1 _ _ ["P", "Q"] "P" (by rfl),
   missing_credential_reported_and_isolated.2.2.2.2.2 _ ["P", "Q"] "Q" (by simp)⟩

/-! ### C9: the sanitizer leaves its argument intact

`_clean_textract_response` mutates objects in place (`del obj[field]`,
lines 229-231) but only after taking the `json.loads(json.dumps(response))`
deep copy (line 216).  To verify that the argument is untouched, the Python
object graph is modelled as a heap of nodes addressed by index; the json
round-trip deep copy allocates a fresh representation of the argument's
value, and `remove_fields` runs in place on the copy. -/

/-- A heap node of the mutable object graph: a scalar, or a container
holding the addresses of its children. -/
inductive Node where
  | nstr (s : String)
  | nnum (n : Int)
  | nbool (b : Bool)
  | nnull
  | narr (elems : List Nat)
  | nobj (fields : List (String × Nat))
  deriving Repr

/-- A heap: the node at address `i` is the `i`-th list entry; allocation
appends. -/
abbrev Heap := List Node

/-- The addresses a node points to. -/
def Node.ptrs : Node → List Nat
  | .narr es => es
  | .nobj fs => fs.map Prod.snd
  | _ => []

/-- Read the JSON value rooted at address `a`, with `fuel` bounding the
depth (inputs come from JSON deserialization, hence are acyclic, so some
finite fuel always suffices). -/
def denote : Nat → Heap → Nat → Option Json
  | 0, _, _ => none
  | fuel + 1, h, a =>
    match h[a]? with
    | none => none
    | some (.nstr s) => some (.str s)
    | some (.nnum n) => some (.num n)
    | some (.nbool b) => some (.bool b)
    | some .nnull => some .null
    | some (.narr es) => (es.mapM (denote fuel h)).map Json.arr
    | some (.nobj fs) =>
      (fs.mapM (fun kv => (denote fuel h kv.2).map (fun j => (kv.1, j)))).map Json.obj

mutual
/-- Allocate a fresh object graph representing a JSON value (the effect of
`json.loads` on the serialized value): children first, then the node itself,
all appended to the heap. -/
def alloc : Json → Heap → Heap × Nat
  | .str s, h => (h ++ [.nstr s], h.length)
  | .num n, h => (h ++ [.nnum n], h.length)
  | .bool b, h => (h ++ [.nbool b], h.length)
  | .null, h => (h ++ [.nnull], h.length)
  | .arr xs, h =>
    let p := allocList xs h
    (p.1 ++ [.narr p.2], p.1.length)
  | .obj fs, h =>
    let p := allocFields fs h
    (p.1 ++ [.nobj p.2], p.1.length)

/-- Allocate the elements of a sequence, left to right. -/
def allocList : List Json → Heap → Heap × List Nat
  | [], h => (h, [])
  | x :: xs, h =>
    let p := alloc x h
    let q := allocList xs p.1
    (q.1, p.2 :: q.2)

/-- Allocate the values of a mapping, in entry order. -/
def allocFields : List (String × Json) → Heap → Heap × List (String × Nat)
  | [], h => (h, [])
  | (k, v) :: fs, h =>
    let p := alloc v h
    let q := allocFields fs p.1
    (q.1, (k, p.2) :: q.2)
end

/-- The `del obj[field]` loop of `remove_fields` (lines 229-231) on one
mapping's entries: entries with a noise key are dropped. -/
def noiseFilter (fs : List (String × Nat)) : List (String × Nat) :=
  fs.filter (fun kv => !(fieldsToRemove.contains kv.1))

/-- `remove_fields` as it executes in Python: in place on the object graph.
On a mapping node the noise-keyed entries are deleted (rebinding the node at
its address), then the kept children are processed recursively
(`obj[key] = remove_fields(value)` rebinds each key to the same, mutated
object); a sequence recurses into its items; scalars are left alone. -/
def removeFieldsMut : Nat → Heap → Nat → Option Heap
  | 0, _, _ => none
  | fuel + 1, h, a =>
    match h[a]? with
    | none => none
    | some (.nobj fs) =>
      let fs2 := noiseFilter fs
      let h2 := h.set a (.nobj fs2)
      (fs2.map Prod.snd).foldlM (fun hh c => removeFieldsMut fuel hh c) h2
    | some (.narr es) => es.foldlM (fun hh c => removeFieldsMut fuel hh c) h
    | some _ => some h

/-- `_clean_textract_response` at heap level (lines 205-253): read the
argument's value (`json.dumps`), allocate the deep copy (`json.loads`), and
run the in-place `remove_fields` on the copy's root.  The size-reduction
print of lines 248-251 only reads both values. -/
def cleanTextractHeap (fuel : Nat) (h : Heap) (a : Nat) : Option (Heap × Nat) :=
  match denote fuel h a with
  | none => none
  | some j =>
    let p := alloc j h
    match removeFieldsMut fuel p.1 p.2 with
    | none => none
    | some h2 => some (h2, p.2)

/-- The pointers of `node` all lie below `n`. -/
def nodePtrsBelow (n : Nat) (node : Node) : Bool :=
  node.ptrs.all (fun p => decide (p < n))

/-- Every pointer stored below address `n` stays below `n` (the original
heap is self-contained). -/
def closedBelow (n : Nat) (h : Heap) : Prop :=
  ∀ i, i < n → nodePtrsBelow n ((h[i]?).getD .nnull) = true

/-- Every pointer stored at or above address `n` stays at or above `n` (the
fresh region never points back into the original). -/
def closedAbove (n : Nat) (h : Heap) : Prop :=
  ∀ i node, h[i]? = some node → n ≤ i → ∀ p ∈ node.ptrs, n ≤ p

/-- Each address holds either its old node or the noise-filtered version of
its old mapping node. -/
def ShrinkAll (h h2 : Heap) : Prop :=
  ∀ i : Nat, h2[i]? = h[i]?
    ∨ ∃ fs : List (String × Nat),
        h[i]? = some (Node.nobj fs) ∧ h2[i]? = some (Node.nobj (noiseFilter fs))

mutual
/-- Nesting depth of a JSON value: the fuel `denote` needs. -/
def jdepth : Json → Nat
  | .str _ => 1
  | .num _ => 1
  | .bool _ => 1
  | .null => 1
  | .arr xs => 1 + jdepthList xs
  | .obj fs => 1 + jdepthFields fs

/-- Maximum depth of a sequence's elements. -/
def jdepthList : List Json → Nat
  | [] => 0
  | x :: xs => max (jdepth x) (jdepthList xs)

/-- Maximum depth of a mapping's values. -/
def jdepthFields : List (String × Json) → Nat
  | [] => 0
  | kv :: fs => max (jdepth kv.2) (jdepthFields fs)
end

example : cleanTextractHeap 3 [.nobj [("Geometry", 1), ("Text", 2)], .nnull, .nstr "x"] 0
    = some ([.nobj [("Geometry", 1), ("Text", 2)], .nnull, .nstr "x",
             .nnull, .nstr "x", .nobj [("Text", 4)]], 5) := by rfl

theorem getElem?_some_lt {α : Type} {l : List α} {i : Nat} {x : α}
    (h : l[i]? = some x) : i < l.length := by
  by_contra hc
  rw [List.getElem?_eq_none (by omega)] at h
  cases h

theorem getElem?_append_lt {α : Type} {l1 : List α} (l2 : List α) {i : Nat}
    (h : i < l1.length) : (l1 ++ l2)[i]? = l1[i]? := by
  rw [List.getElem?_append, if_pos h]

theorem mapM_option_mono {α β : Type} (f g : α → Option β) {l : List α}
    (hfg : ∀ x ∈ l, ∀ y, f x = some y → g x = some y) :
    ∀ ys, l.mapM f = some ys → l.mapM g = some ys := by
  induction l with
  | nil => intro ys h; simpa using h
  | cons x xs ih =>
    intro ys h
    rw [List.mapM_cons] at h ⊢
    cases hf : f x with
    | none => rw [hf] at h; simp at h
    | some y =>
      rw [hf] at h
      cases hrest : xs.mapM f with
      | none => rw [hrest] at h; simp at h
      | some rest =>
        rw [hrest] at h
        simp only [Option.bind_some, Option.pure_def] at h
        rw [hfg x (List.mem_cons_self x xs) y hf,
          ih (fun z hz => hfg z (List.mem_cons_of_mem x hz)) rest hrest]
        simpa using h

theorem mapM_option_mem {α β : Type} {l : List α} {f : α → Option β} {ys : List β}
    (h : l.mapM f = some ys) : ∀ x ∈ l, ∃ y, f x = some y := by
  induction l generalizing ys with
  | nil => intro x hx; cases hx
  | cons z zs ih =>
    rw [List.mapM_cons] at h
    cases hf : f z with
    | none => rw [hf] at h; simp at h
    | some y =>
      rw [hf] at h
      cases hrest : zs.mapM f with
      | none => rw [hrest] at h; simp at h
      | some rest =>
        intro x hx
        rcases List.mem_cons.mp hx with hx | hx
        · exact ⟨y, hx ▸ hf⟩
        · exact ih hrest x hx

theorem mapM_option_total {α β : Type} {l : List α} {f : α → Option β}
    (h : ∀ x ∈ l, ∃ y, f x = some y) : ∃ ys, l.mapM f = some ys := by
  induction l with
  | nil => exact ⟨[], rfl⟩
  | cons x xs ih =>
    obtain ⟨y, hy⟩ := h x (List.mem_cons_self x xs)
    obtain ⟨rest, hrest⟩ := ih (fun z hz => h z (List.mem_cons_of_mem x hz))
    exact ⟨y :: rest, by rw [List.mapM_cons, hy, hrest]; rfl⟩

theorem denote_nstr {fuel : Nat} {h : Heap} {a : Nat} {s : String}
    (hget : h[a]? = some (.nstr s)) :
    denote (fuel + 1) h a = some (.str s) := by rw [denote, hget]

theorem denote_nnum {fuel : Nat} {h : Heap} {a : Nat} {n : Int}
    (hget : h[a]? = some (.nnum n)) :
    denote (fuel + 1) h a = some (.num n) := by rw [denote, hget]

theorem denote_nbool {fuel : Nat} {h : Heap} {a : Nat} {b : Bool}
    (hget : h[a]? = some (.nbool b)) :
    denote (fuel + 1) h a = some (.bool b) := by rw [denote, hget]

theorem denote_nnull {fuel : Nat} {h : Heap} {a : Nat}
    (hget : h[a]? = some .nnull) :
    denote (fuel + 1) h a = some .null := by rw [denote, hget]

theorem denote_narr {fuel : Nat} {h : Heap} {a : Nat} {es : List Nat}
    (hget : h[a]? = some (.narr es)) :
    denote (fuel + 1) h a = (es.mapM (denote fuel h)).map Json.arr := by
  rw [denote, hget]

theorem denote_nobj {fuel : Nat} {h : Heap} {a : Nat} {fs : List (String × Nat)}
    (hget : h[a]? = some (.nobj fs)) :
    denote (fuel + 1) h a
      = (fs.mapM (fun kv => (denote fuel h kv.2).map (fun v => (kv.1, v)))).map Json.obj := by
  rw [denote, hget]

theorem denote_none {fuel : Nat} {h : Heap} {a : Nat}
    (hget : h[a]? = none) : denote (fuel + 1) h a = none := by rw [denote, hget]

/-- Heap extension preserves denotations of old addresses. -/
theorem denote_append (fuel : Nat) :
    ∀ (h ext : Heap) (a : Nat) (j : Json),
      denote fuel h a = some j → denote fuel (h ++ ext) a = some j := by
  induction fuel with
  | zero => intro h ext a j hj; simp [denote] at hj
  | succ fuel ih =>
    intro h ext a j hj
    cases hget : h[a]? with
    | none => rw [denote_none hget] at hj; cases hj
    | some node =>
      have hget2 : (h ++ ext)[a]? = some node := by
        rw [getElem?_append_lt ext (getElem?_some_lt hget)]; exact hget
      cases node with
      | nstr s => rw [denote_nstr hget] at hj; rw [denote_nstr hget2]; exact hj
      | nnum n => rw [denote_nnum hget] at hj; rw [denote_nnum hget2]; exact hj
      | nbool b => rw [denote_nbool hget] at hj; rw [denote_nbool hget2]; exact hj
      | nnull => rw [denote_nnull hget] at hj; rw [denote_nnull hget2]; exact hj
      | narr es =>
        rw [denote_narr hget] at hj
        rw [denote_narr hget2]
        cases hm : es.mapM (denote fuel h) with
        | none => rw [hm] at hj; cases hj
        | some js =>
          rw [hm] at hj
          rw [mapM_option_mono (denote fuel h) (denote fuel (h ++ ext))
            (fun c _ jc hc => ih h ext c jc hc) js hm]
          exact hj
      | nobj fs =>
        rw [denote_nobj hget] at hj
        rw [denote_nobj hget2]
        cases hm : fs.mapM (fun kv => (denote fuel h kv.2).map (fun v => (kv.1, v))) with
        | none => rw [hm] at hj; cases hj
        | some js =>
          rw [hm] at hj
          have hfg : ∀ kv ∈ fs, ∀ y,
              (denote fuel h kv.2).map (fun v => (kv.1, v)) = some y →
              (denote fuel (h ++ ext) kv.2).map (fun v => (kv.1, v)) = some y := by
            intro kv _ y hy
            cases hd : denote fuel h kv.2 with
            | none => rw [hd] at hy; cases hy
            | some v =>
              rw [hd] at hy
              rw [ih h ext kv.2 v hd]
              exact hy
          rw [mapM_option_mono
            (fun kv : String × Nat => (denote fuel h kv.2).map (fun v => (kv.1, v)))
            (fun kv : String × Nat => (denote fuel (h ++ ext) kv.2).map (fun v => (kv.1, v)))
            hfg js hm]
          exact hj

/-- A pointer accessor for `closedBelow`. -/
theorem closedBelow_ptr {n : Nat} {h : Heap} {i : Nat} {node : Node} {p : Nat}
    (hcb : closedBelow n h) (hi : i < n) (hget : h[i]? = some node)
    (hp : p ∈ node.ptrs) : p < n := by
  have hx := hcb i hi
  rw [hget] at hx
  simp only [Option.getD_some, nodePtrsBelow, List.all_eq_true] at hx
  simpa using hx p hp

/-- Denotation below a self-contained region depends only on that region. -/
theorem denote_agree (fuel : Nat) :
    ∀ (h h2 : Heap) (n : Nat), closedBelow n h →
      (∀ i, i < n → h2[i]? = h[i]?) →
      ∀ (a : Nat) (j : Json), a < n →
        denote fuel h a = some j → denote fuel h2 a = some j := by
  induction fuel with
  | zero => intro h h2 n _ _ a j _ hj; simp [denote] at hj
  | succ fuel ih =>
    intro h h2 n hcb hagree a j ha hj
    cases hget : h[a]? with
    | none => rw [denote_none hget] at hj; cases hj
    | some node =>
      have hget2 : h2[a]? = some node := by rw [hagree a ha]; exact hget
      cases node with
      | nstr s => rw [denote_nstr hget] at hj; rw [denote_nstr hget2]; exact hj
      | nnum n2 => rw [denote_nnum hget] at hj; rw [denote_nnum hget2]; exact hj
      | nbool b => rw [denote_nbool hget] at hj; rw [denote_nbool hget2]; exact hj
      | nnull => rw [denote_nnull hget] at hj; rw [denote_nnull hget2]; exact hj
      | narr es =>
        rw [denote_narr hget] at hj
        rw [denote_narr hget2]
        cases hm : es.mapM (denote fuel h) with
        | none => rw [hm] at hj; cases hj
        | some js =>
          rw [hm] at hj
          rw [mapM_option_mono (denote fuel h) (denote fuel h2)
            (fun c hc jc hjc =>
              ih h h2 n hcb hagree c jc
                (closedBelow_ptr hcb ha hget (by simpa [Node.ptrs] using hc)) hjc) js hm]
          exact hj
      | nobj fs =>
        rw [denote_nobj hget] at hj
        rw [denote_nobj hget2]
        cases hm : fs.mapM (fun kv => (denote fuel h kv.2).map (fun v => (kv.1, v))) with
        | none => rw [hm] at hj; cases hj
        | some js =>
          rw [hm] at hj
          have hfg : ∀ kv ∈ fs, ∀ y,
              (denote fuel h kv.2).map (fun v => (kv.1, v)) = some y →
              (denote fuel h2 kv.2).map (fun v => (kv.1, v)) = some y := by
            intro kv hkv y hy
            cases hd : denote fuel h kv.2 with
            | none => rw [hd] at hy; cases hy
            | some v =>
              rw [hd] at hy
              have hp : kv.2 ∈ Node.ptrs (.nobj fs) := by
                simp [Node.ptrs]
                exact ⟨kv.1, hkv⟩
              rw [ih h h2 n hcb hagree kv.2 v
                (closedBelow_ptr hcb ha hget hp) hd]
              exact hy
          rw [mapM_option_mono
            (fun kv : String × Nat => (denote fuel h kv.2).map (fun v => (kv.1, v)))
            (fun kv : String × Nat => (denote fuel h2 kv.2).map (fun v => (kv.1, v)))
            hfg js hm]
          exact hj

theorem jdepth_pos (j : Json) : 1 ≤ jdepth j := by
  cases j <;> simp [jdepth]

theorem jdepthList_le_of_mapM {fuel : Nat} {h : Heap}
    (ihd : ∀ a j, denote fuel h a = some j → jdepth j ≤ fuel) :
    ∀ (es : List Nat) (js : List Json),
      es.mapM (denote fuel h) = some js → jdepthList js ≤ fuel := by
  intro es
  induction es with
  | nil =>
    intro js hm
    rw [List.mapM_nil] at hm
    cases hm
    simp [jdepthList]
  | cons c cs ih =>
    intro js hm
    rw [List.mapM_cons] at hm
    cases hc : denote fuel h c with
    | none => rw [hc] at hm; simp at hm
    | some jc =>
      rw [hc] at hm
      cases hrest : cs.mapM (denote fuel h) with
      | none => rw [hrest] at hm; simp at hm
      | some rest =>
        rw [hrest] at hm
        simp at hm
        rw [← hm, jdepthList]
        exact max_le (ihd c jc hc) (ih rest hrest)

theorem jdepthFields_le_of_mapM {fuel : Nat} {h : Heap}
    (ihd : ∀ a j, denote fuel h a = some j → jdepth j ≤ fuel) :
    ∀ (fs : List (String × Nat)) (js : List (String × Json)),
      fs.mapM (fun kv => (denote fuel h kv.2).map (fun v => (kv.1, v))) = some js →
      jdepthFields js ≤ fuel := by
  intro fs
  induction fs with
  | nil =>
    intro js hm
    rw [List.mapM_nil] at hm
    cases hm
    simp [jdepthFields]
  | cons kv kvs ih =>
    intro js hm
    rw [List.mapM_cons] at hm
    cases hc : denote fuel h kv.2 with
    | none => rw [hc] at hm; simp at hm
    | some jc =>
      rw [hc] at hm
      cases hrest : kvs.mapM (fun kv => (denote fuel h kv.2).map (fun v => (kv.1, v))) with
      | none => rw [hrest] at hm; simp at hm
      | some rest =>
        rw [hrest] at hm
        simp at hm
        rw [← hm, jdepthFields]
        exact max_le (ihd kv.2 jc hc) (ih rest hrest)

/-- A successful denotation fits within its fuel. -/
theorem denote_jdepth (fuel : Nat) :
    ∀ (h : Heap) (a : Nat) (j : Json), denote fuel h a = some j → jdepth j ≤ fuel := by
  induction fuel with
  | zero => intro h a j hj; simp [denote] at hj
  | succ fuel ih =>
    intro h a j hj
    cases hget : h[a]? with
    | none => rw [denote_none hget] at hj; cases hj
    | some node =>
      cases node with
      | nstr s =>
        rw [denote_nstr hget] at hj
        cases hj; simp [jdepth]
      | nnum n =>
        rw [denote_nnum hget] at hj
        cases hj; simp [jdepth]
      | nbool b =>
        rw [denote_nbool hget] at hj
        cases hj; simp [jdepth]
      | nnull =>
        rw [denote_nnull hget] at hj
        cases hj; simp [jdepth]
      | narr es =>
        rw [denote_narr hget] at hj
        cases hm : es.mapM (denote fuel h) with
        | none => rw [hm] at hj; cases hj
        | some js =>
          rw [hm] at hj
          cases hj
          have := jdepthList_le_of_mapM (ih h) es js hm
          simp [jdepth]; omega
      | nobj fs =>
        rw [denote_nobj hget] at hj
        cases hm : fs.mapM (fun kv => (denote fuel h kv.2).map (fun v => (kv.1, v))) with
        | none => rw [hm] at hj; cases hj
        | some js =>
          rw [hm] at hj
          cases hj
          have := jdepthFields_le_of_mapM (ih h) fs js hm
          simp [jdepth]; omega

theorem closedAbove_append_node {n : Nat} {h : Heap} {node : Node}
    (hca : closedAbove n h) (hnode : ∀ p ∈ node.ptrs, n ≤ p) :
    closedAbove n (h ++ [node]) := by
  intro i nd hget hni p hp
  by_cases hi : i < h.length
  · rw [getElem?_append_lt [node] hi] at hget
    exact hca i nd hget hni p hp
  · have hlen : i < h.length + 1 := by simpa using getElem?_some_lt hget
    have hieq : i = h.length := by omega
    subst hieq
    rw [List.getElem?_concat_length] at hget
    cases hget
    exact hnode p hp

/-- The region at or above the heap's length is empty, hence closed. -/
theorem closedAbove_trivial (h : Heap) : closedAbove h.length h := by
  intro i node hget hni
  have := getElem?_some_lt hget
  omega

mutual
theorem alloc_ok : ∀ (j : Json) (acc : Heap) (n : Nat),
    n ≤ acc.length → closedAbove n acc →
    ∃ ext a1, alloc j acc = (acc ++ ext, a1)
      ∧ n ≤ a1 ∧ a1 < acc.length + ext.length
      ∧ closedAbove n (acc ++ ext)
      ∧ (∀ fuel, jdepth j ≤ fuel + 1 → denote (fuel + 1) (acc ++ ext) a1 = some j)
  | .str s, acc, n, hn, hca =>
    ⟨[.nstr s], acc.length, rfl, hn, by simp, closedAbove_append_node hca (by simp [Node.ptrs]),
     fun fuel _ => denote_nstr (by rw [List.getElem?_concat_length])⟩
  | .num m, acc, n, hn, hca =>
    ⟨[.nnum m], acc.length, rfl, hn, by simp, closedAbove_append_node hca (by simp [Node.ptrs]),
     fun fuel _ => denote_nnum (by rw [List.getElem?_concat_length])⟩
  | .bool b, acc, n, hn, hca =>
    ⟨[.nbool b], acc.length, rfl, hn, by simp, closedAbove_append_node hca (by simp [Node.ptrs]),
     fun fuel _ => denote_nbool (by rw [List.getElem?_concat_length])⟩
  | .null, acc, n, hn, hca =>
    ⟨[.nnull], acc.length, rfl, hn, by simp, closedAbove_append_node hca (by simp [Node.ptrs]),
     fun fuel _ => denote_nnull (by rw [List.getElem?_concat_length])⟩
  | .arr xs, acc, n, hn, hca => by
    obtain ⟨ext1, addrs, heq, haddrs, hca1, hden⟩ := allocList_ok xs acc n hn hca
    refine ⟨ext1 ++ [.narr addrs], (acc ++ ext1).length, ?_, ?_, ?_, ?_, ?_⟩
    · show (let p := allocList xs acc; (p.1 ++ [Node.narr p.2], p.1.length))
        = (acc ++ (ext1 ++ [Node.narr addrs]), (acc ++ ext1).length)
      rw [heq]
      simp [List.append_assoc]
    · simp only [List.length_append]; omega
    · simp only [List.length_append, List.length_cons, List.length_nil]; omega
    · rw [← List.append_assoc]
      exact closedAbove_append_node hca1 (by
        intro p hp
        exact (haddrs p (by simpa [Node.ptrs] using hp)).1)
    · intro fuel hd
      rw [← List.append_assoc]
      have hget : ((acc ++ ext1) ++ [Node.narr addrs])[(acc ++ ext1).length]?
          = some (Node.narr addrs) := by rw [List.getElem?_concat_length]
      rw [denote_narr hget]
      have hd2 : jdepthList xs ≤ fuel := by
        rw [jdepth] at hd; omega
      rw [mapM_option_mono (denote fuel (acc ++ ext1))
        (denote fuel ((acc ++ ext1) ++ [Node.narr addrs]))
        (fun c _ jc hjc => denote_append fuel (acc ++ ext1) [Node.narr addrs] c jc hjc)
        xs (hden fuel hd2)]
      rfl
  | .obj fs, acc, n, hn, hca => by
    obtain ⟨ext1, fads, heq, haddrs, hca1, hden⟩ := allocFields_ok fs acc n hn hca
    refine ⟨ext1 ++ [.nobj fads], (acc ++ ext1).length, ?_, ?_, ?_, ?_, ?_⟩
    · show (let p := allocFields fs acc; (p.1 ++ [Node.nobj p.2], p.1.length))
        = (acc ++ (ext1 ++ [Node.nobj fads]), (acc ++ ext1).length)
      rw [heq]
      simp [List.append_assoc]
    · simp only [List.length_append]; omega
    · simp only [List.length_append, List.length_cons, List.length_nil]; omega
    · rw [← List.append_assoc]
      exact closedAbove_append_node hca1 (by
        intro p hp
        exact (haddrs p (by simpa [Node.ptrs] using hp)).1)
    · intro fuel hd
      rw [← List.append_assoc]
      have hget : ((acc ++ ext1) ++ [Node.nobj fads])[(acc ++ ext1).length]?
          = some (Node.nobj fads) := by rw [List.getElem?_concat_length]
      rw [denote_nobj hget]
      have hd2 : jdepthFields fs ≤ fuel := by
        rw [jdepth] at hd; omega
      have hfg : ∀ kv ∈ fads, ∀ y,
          (denote fuel (acc ++ ext1) kv.2).map (fun v => (kv.1, v)) = some y →
          (denote fuel ((acc ++ ext1) ++ [Node.nobj fads]) kv.2).map
            (fun v => (kv.1, v)) = some y := by
        intro kv _ y hy
        cases hdd : denote fuel (acc ++ ext1) kv.2 with
        | none => rw [hdd] at hy; cases hy
        | some v =>
          rw [hdd] at hy
          rw [denote_append fuel (acc ++ ext1) [Node.nobj fads] kv.2 v hdd]
          exact hy
      rw [mapM_option_mono
        (fun kv : String × Nat => (denote fuel (acc ++ ext1) kv.2).map (fun v => (kv.1, v)))
        (fun kv : String × Nat =>
          (denote fuel ((acc ++ ext1) ++ [Node.nobj fads]) kv.2).map (fun v => (kv.1, v)))
        hfg fs (hden fuel hd2)]
      rfl

theorem allocList_ok : ∀ (xs : List Json) (acc : Heap) (n : Nat),
    n ≤ acc.length → closedAbove n acc →
    ∃ ext addrs, allocList xs acc = (acc ++ ext, addrs)
      ∧ (∀ p ∈ addrs, n ≤ p ∧ p < acc.length + ext.length)
      ∧ closedAbove n (acc ++ ext)
      ∧ (∀ fuel, jdepthList xs ≤ fuel → addrs.mapM (denote fuel (acc ++ ext)) = some xs)
  | [], acc, n, hn, hca => by
    refine ⟨[], [], by simp [allocList], by simp, by simpa using hca, ?_⟩
    intro fuel _
    rfl
  | x :: xs, acc, n, hn, hca => by
    obtain ⟨ext1, a1, heq1, hna1, ha1lt, hca1, hden1⟩ := alloc_ok x acc n hn hca
    obtain ⟨ext2, addrs, heq2, haddrs, hca2, hden2⟩ :=
      allocList_ok xs (acc ++ ext1) n (by simp; omega) hca1
    refine ⟨ext1 ++ ext2, a1 :: addrs, ?_, ?_, ?_, ?_⟩
    · show (let p := alloc x acc
            let q := allocList xs p.1
            (q.1, p.2 :: q.2))
        = (acc ++ (ext1 ++ ext2), a1 :: addrs)
      rw [heq1]
      show (let q := allocList xs (acc ++ ext1); (q.1, a1 :: q.2))
        = (acc ++ (ext1 ++ ext2), a1 :: addrs)
      rw [heq2]
      simp [List.append_assoc]
    · intro p hp
      rcases List.mem_cons.mp hp with hp | hp
      · subst hp
        refine ⟨hna1, ?_⟩
        simp; omega
      · have := haddrs p hp
        simp at this ⊢
        omega
    · rw [← List.append_assoc]
      exact hca2
    · intro fuel hd
      rw [jdepthList] at hd
      have hdx : jdepth x ≤ fuel := le_trans (le_max_left _ _) hd
      have hdxs : jdepthList xs ≤ fuel := le_trans (le_max_right _ _) hd
      rw [← List.append_assoc]
      rw [List.mapM_cons]
      cases fuel with
      | zero => have := jdepth_pos x; omega
      | succ f =>
        have hx : denote (f + 1) ((acc ++ ext1) ++ ext2) a1 = some x :=
          denote_append (f + 1) (acc ++ ext1) ext2 a1 x (hden1 f hdx)
        rw [hx, hden2 (f + 1) hdxs]
        rfl

theorem allocFields_ok : ∀ (fs : List (String × Json)) (acc : Heap) (n : Nat),
    n ≤ acc.length → closedAbove n acc →
    ∃ ext fads, allocFields fs acc = (acc ++ ext, fads)
      ∧ (∀ p ∈ fads.map Prod.snd, n ≤ p ∧ p < acc.length + ext.length)
      ∧ closedAbove n (acc ++ ext)
      ∧ (∀ fuel, jdepthFields fs ≤ fuel →
          fads.mapM (fun kv => (denote fuel (acc ++ ext) kv.2).map (fun v => (kv.1, v)))
            = some fs)
  | [], acc, n, hn, hca => by
    refine ⟨[], [], by simp [allocFields], by simp, by simpa using hca, ?_⟩
    intro fuel _
    rfl
  | (k, v) :: fs, acc, n, hn, hca => by
    obtain ⟨ext1, a1, heq1, hna1, ha1lt, hca1, hden1⟩ := alloc_ok v acc n hn hca
    obtain ⟨ext2, fads, heq2, haddrs, hca2, hden2⟩ :=
      allocFields_ok fs (acc ++ ext1) n (by simp; omega) hca1
    refine ⟨ext1 ++ ext2, (k, a1) :: fads, ?_, ?_, ?_, ?_⟩
    · show (let p := alloc v acc
            let q := allocFields fs p.1
            (q.1, (k, p.2) :: q.2))
        = (acc ++ (ext1 ++ ext2), (k, a1) :: fads)
      rw [heq1]
      show (let q := allocFields fs (acc ++ ext1); (q.1, (k, a1) :: q.2))
        = (acc ++ (ext1 ++ ext2), (k, a1) :: fads)
      rw [heq2]
      simp [List.append_assoc]
    · intro p hp
      simp only [List.map_cons] at hp
      rcases List.mem_cons.mp hp with hp | hp
      · subst hp
        refine ⟨hna1, ?_⟩
        simp; omega
      · have := haddrs p hp
        simp at this ⊢
        omega
    · rw [← List.append_assoc]
      exact hca2
    · intro fuel hd
      rw [jdepthFields] at hd
      have hdx : jdepth v ≤ fuel := le_trans (le_max_left _ _) hd
      have hdxs : jdepthFields fs ≤ fuel := le_trans (le_max_right _ _) hd
      rw [← List.append_assoc]
      rw [List.mapM_cons]
      cases fuel with
      | zero => have := jdepth_pos v; omega
      | succ f =>
        have hx : denote (f + 1) ((acc ++ ext1) ++ ext2) a1 = some v :=
          denote_append (f + 1) (acc ++ ext1) ext2 a1 v (hden1 f hdx)
        rw [hx, hden2 (f + 1) hdxs]
        rfl

end

theorem noiseFilter_idem (fs : List (String × Nat)) :
    noiseFilter (noiseFilter fs) = noiseFilter fs := by
  simp [noiseFilter, List.filter_filter]

theorem shrinkAll_refl (h : Heap) : ShrinkAll h h := fun _ => Or.inl rfl

theorem shrinkAll_trans {h h2 h3 : Heap}
    (h12 : ShrinkAll h h2) (h23 : ShrinkAll h2 h3) : ShrinkAll h h3 := by
  intro i
  rcases h23 i with he | ⟨fs2, hget2, hget3⟩
  · rcases h12 i with he2 | ⟨fs, hget, hget2⟩
    · exact Or.inl (he.trans he2)
    · exact Or.inr ⟨fs, hget, he.trans hget2⟩
  · rcases h12 i with he2 | ⟨fs, hget, hget2b⟩
    · exact Or.inr ⟨fs2, he2 ▸ hget2, hget3⟩
    · rw [hget2b] at hget2
      cases hget2
      exact Or.inr ⟨fs, hget, by rw [hget3, noiseFilter_idem]⟩

theorem shrinkAll_set {h : Heap} {a : Nat} {fs : List (String × Nat)}
    (hget : h[a]? = some (.nobj fs)) :
    ShrinkAll h (h.set a (.nobj (noiseFilter fs))) := by
  intro i
  by_cases hia : a = i
  · subst hia
    refine Or.inr ⟨fs, hget, ?_⟩
    rw [List.getElem?_set_self]
    exact getElem?_some_lt hget
  · exact Or.inl (List.getElem?_set_ne hia)

/-- Noise-filtering steps preserve the existence of denotations. -/
theorem denote_shrink (fuel : Nat) :
    ∀ (h h2 : Heap), ShrinkAll h h2 →
      ∀ (a : Nat) (j : Json), denote fuel h a = some j →
        ∃ j2, denote fuel h2 a = some j2 := by
  induction fuel with
  | zero => intro h h2 _ a j hj; simp [denote] at hj
  | succ fuel ih =>
    intro h h2 hs a j hj
    cases hget : h[a]? with
    | none => rw [denote_none hget] at hj; cases hj
    | some node =>
      rcases hs a with he | ⟨fs, hgetf, hget2⟩
      · rw [hget] at he
        cases node with
        | nstr s => exact ⟨.str s, denote_nstr he⟩
        | nnum m => exact ⟨.num m, denote_nnum he⟩
        | nbool b => exact ⟨.bool b, denote_nbool he⟩
        | nnull => exact ⟨.null, denote_nnull he⟩
        | narr es =>
          rw [denote_narr hget] at hj
          cases hm : es.mapM (denote fuel h) with
          | none => rw [hm] at hj; cases hj
          | some js =>
            have hmem := mapM_option_mem hm
            have htot : ∀ c ∈ es, ∃ jc, denote fuel h2 c = some jc := by
              intro c hc
              obtain ⟨jc, hjc⟩ := hmem c hc
              exact ih h h2 hs c jc hjc
            obtain ⟨js2, hm2⟩ := mapM_option_total htot
            exact ⟨.arr js2, by rw [denote_narr he, hm2]; rfl⟩
        | nobj fs =>
          rw [denote_nobj hget] at hj
          cases hm : fs.mapM (fun kv => (denote fuel h kv.2).map (fun v => (kv.1, v))) with
          | none => rw [hm] at hj; cases hj
          | some js =>
            have hmem := mapM_option_mem hm
            have htot : ∀ kv ∈ fs, ∃ y,
                (denote fuel h2 kv.2).map (fun v => (kv.1, v)) = some y := by
              intro kv hkv
              obtain ⟨y, hy⟩ := hmem kv hkv
              cases hd : denote fuel h kv.2 with
              | none => rw [hd] at hy; cases hy
              | some v =>
                obtain ⟨v2, hv2⟩ := ih h h2 hs kv.2 v hd
                exact ⟨(kv.1, v2), by rw [hv2]; rfl⟩
            obtain ⟨js2, hm2⟩ := mapM_option_total htot
            exact ⟨.obj js2, by rw [denote_nobj he, hm2]; rfl⟩
      · rw [hget] at hgetf
        cases hgetf
        rw [denote_nobj hget] at hj
        cases hm : fs.mapM (fun kv => (denote fuel h kv.2).map (fun v => (kv.1, v))) with
        | none => rw [hm] at hj; cases hj
        | some js =>
          have hmem := mapM_option_mem hm
          have htot : ∀ kv ∈ noiseFilter fs, ∃ y,
              (denote fuel h2 kv.2).map (fun v => (kv.1, v)) = some y := by
            intro kv hkv
            have hkv2 : kv ∈ fs := List.mem_of_mem_filter hkv
            obtain ⟨y, hy⟩ := hmem kv hkv2
            cases hd : denote fuel h kv.2 with
            | none => rw [hd] at hy; cases hy
            | some v =>
              obtain ⟨v2, hv2⟩ := ih h h2 hs kv.2 v hd
              exact ⟨(kv.1, v2), by rw [hv2]; rfl⟩
          obtain ⟨js2, hm2⟩ := mapM_option_total htot
          exact ⟨.obj js2, by rw [denote_nobj hget2, hm2]; rfl⟩

theorem mut_nstr {fuel : Nat} {h : Heap} {a : Nat} {s : String}
    (hget : h[a]? = some (.nstr s)) :
    removeFieldsMut (fuel + 1) h a = some h := by rw [removeFieldsMut, hget]

theorem mut_nnum {fuel : Nat} {h : Heap} {a : Nat} {m : Int}
    (hget : h[a]? = some (.nnum m)) :
    removeFieldsMut (fuel + 1) h a = some h := by rw [removeFieldsMut, hget]

theorem mut_nbool {fuel : Nat} {h : Heap} {a : Nat} {b : Bool}
    (hget : h[a]? = some (.nbool b)) :
    removeFieldsMut (fuel + 1) h a = some h := by rw [removeFieldsMut, hget]

theorem mut_nnull {fuel : Nat} {h : Heap} {a : Nat}
    (hget : h[a]? = some .nnull) :
    removeFieldsMut (fuel + 1) h a = some h := by rw [removeFieldsMut, hget]

theorem mut_narr {fuel : Nat} {h : Heap} {a : Nat} {es : List Nat}
    (hget : h[a]? = some (.narr es)) :
    removeFieldsMut (fuel + 1) h a
      = es.foldlM (fun hh c => removeFieldsMut fuel hh c) h := by
  rw [removeFieldsMut, hget]

theorem mut_nobj {fuel : Nat} {h : Heap} {a : Nat} {fs : List (String × Nat)}
    (hget : h[a]? = some (.nobj fs)) :
    removeFieldsMut (fuel + 1) h a
      = ((noiseFilter fs).map Prod.snd).foldlM (fun hh c => removeFieldsMut fuel hh c)
          (h.set a (.nobj (noiseFilter fs))) := by
  rw [removeFieldsMut, hget]

/-- The sequential mutation of a list of children, threading the heap:
success and all frame invariants are preserved, relative to a base heap
`h0` in which the children are denotable. -/
theorem mutFold_ok (fuel : Nat)
    (ih : ∀ (h : Heap) (a : Nat) (j : Json) (n : Nat),
      denote fuel h a = some j → n ≤ a → closedAbove n h →
      ∃ h2, removeFieldsMut fuel h a = some h2 ∧ h2.length = h.length
        ∧ (∀ i, i < n → h2[i]? = h[i]?) ∧ closedAbove n h2 ∧ ShrinkAll h h2) :
    ∀ (cs : List Nat) (h0 h : Heap) (n : Nat),
      (∀ c ∈ cs, ∃ jc, denote fuel h0 c = some jc) →
      (∀ c ∈ cs, n ≤ c) →
      h.length = h0.length →
      (∀ i, i < n → h[i]? = h0[i]?) →
      closedAbove n h →
      ShrinkAll h0 h →
      ∃ h2, cs.foldlM (fun hh c => removeFieldsMut fuel hh c) h = some h2
        ∧ h2.length = h0.length
        ∧ (∀ i, i < n → h2[i]? = h0[i]?)
        ∧ closedAbove n h2
        ∧ ShrinkAll h0 h2 := by
  intro cs
  induction cs with
  | nil =>
    intro h0 h n _ _ hlen hagr hca hs
    exact ⟨h, by rw [List.foldlM_nil]; rfl, hlen, hagr, hca, hs⟩
  | cons c cs ihl =>
    intro h0 h n hden hge hlen hagr hca hs
    obtain ⟨jc, hjc⟩ := hden c (List.mem_cons_self c cs)
    obtain ⟨jc2, hjc2⟩ := denote_shrink fuel h0 h hs c jc hjc
    obtain ⟨h2, hmut, hlen2, hagr2, hca2, hs2⟩ :=
      ih h c jc2 n hjc2 (hge c (List.mem_cons_self c cs)) hca
    obtain ⟨h3, hfold, hlen3, hagr3, hca3, hs3⟩ :=
      ihl h0 h2 n
        (fun z hz => hden z (List.mem_cons_of_mem c hz))
        (fun z hz => hge z (List.mem_cons_of_mem c hz))
        (hlen2.trans hlen)
        (fun i hi => (hagr2 i hi).trans (hagr i hi))
        hca2
        (shrinkAll_trans hs hs2)
    refine ⟨h3, ?_, hlen3, hagr3, hca3, hs3⟩
    rw [List.foldlM_cons, hmut]
    exact hfold

/-- In-place `remove_fields` on a root inside an upward-closed region:
it succeeds, keeps the heap's length, never touches an address below the
region, preserves the region's upward closure, and only noise-filters
mapping nodes. -/
theorem removeFieldsMut_ok (fuel : Nat) :
    ∀ (h : Heap) (a : Nat) (j : Json) (n : Nat),
      denote fuel h a = some j → n ≤ a → closedAbove n h →
      ∃ h2, removeFieldsMut fuel h a = some h2 ∧ h2.length = h.length
        ∧ (∀ i, i < n → h2[i]? = h[i]?) ∧ closedAbove n h2 ∧ ShrinkAll h h2 := by
  induction fuel with
  | zero => intro h a j n hj; simp [denote] at hj
  | succ fuel ih =>
    intro h a j n hj hna hca
    cases hget : h[a]? with
    | none => rw [denote_none hget] at hj; cases hj
    | some node =>
      cases node with
      | nstr s =>
        exact ⟨h, mut_nstr hget, rfl, fun _ _ => rfl, hca, shrinkAll_refl h⟩
      | nnum m =>
        exact ⟨h, mut_nnum hget, rfl, fun _ _ => rfl, hca, shrinkAll_refl h⟩
      | nbool b =>
        exact ⟨h, mut_nbool hget, rfl, fun _ _ => rfl, hca, shrinkAll_refl h⟩
      | nnull =>
        exact ⟨h, mut_nnull hget, rfl, fun _ _ => rfl, hca, shrinkAll_refl h⟩
      | narr es =>
        rw [denote_narr hget] at hj
        cases hm : es.mapM (denote fuel h) with
        | none => rw [hm] at hj; cases hj
        | some js =>
          have hden : ∀ c ∈ es, ∃ jc, denote fuel h c = some jc := mapM_option_mem hm
          have hge : ∀ c ∈ es, n ≤ c := fun c hc =>
            hca a (.narr es) hget hna c (by simpa [Node.ptrs] using hc)
          obtain ⟨h2, hfold, hlen2, hagr2, hca2, hs2⟩ :=
            mutFold_ok fuel ih es h h n hden hge rfl (fun _ _ => rfl) hca
              (shrinkAll_refl h)
          exact ⟨h2, by rw [mut_narr hget]; exact hfold, hlen2, hagr2, hca2, hs2⟩
      | nobj fs =>
        rw [denote_nobj hget] at hj
        cases hm : fs.mapM (fun kv => (denote fuel h kv.2).map (fun v => (kv.1, v))) with
        | none => rw [hm] at hj; cases hj
        | some js =>
          have halt : a < h.length := getElem?_some_lt hget
          have hsub : ∀ p ∈ (noiseFilter fs).map Prod.snd, p ∈ Node.ptrs (.nobj fs) := by
            intro p hp
            obtain ⟨kv, hkv, hkvp⟩ := List.mem_map.mp hp
            exact List.mem_map.mpr ⟨kv, List.mem_of_mem_filter hkv, hkvp⟩
          have hmem := mapM_option_mem hm
          have hden : ∀ c ∈ (noiseFilter fs).map Prod.snd,
              ∃ jc, denote fuel h c = some jc := by
            intro c hc
            obtain ⟨kv, hkv, hkvc⟩ := List.mem_map.mp hc
            obtain ⟨y, hy⟩ := hmem kv (List.mem_of_mem_filter hkv)
            cases hd : denote fuel h kv.2 with
            | none => rw [hd] at hy; cases hy
            | some v => exact ⟨v, hkvc ▸ hd⟩
          have hge : ∀ c ∈ (noiseFilter fs).map Prod.snd, n ≤ c := fun c hc =>
            hca a (.nobj fs) hget hna c (hsub c hc)
          have hset := shrinkAll_set hget
          have hlen1 : (h.set a (.nobj (noiseFilter fs))).length = h.length :=
            List.length_set h a _
          have hagr1 : ∀ i, i < n → (h.set a (.nobj (noiseFilter fs)))[i]? = h[i]? := by
            intro i hi
            exact List.getElem?_set_ne (by omega)
          have hca1 : closedAbove n (h.set a (.nobj (noiseFilter fs))) := by
            intro i node hgeti hni p hp
            by_cases hia : a = i
            · subst hia
              rw [List.getElem?_set_self halt] at hgeti
              cases hgeti
              exact hca a (.nobj fs) hget hna p (hsub p hp)
            · rw [List.getElem?_set_ne hia] at hgeti
              exact hca i node hgeti hni p hp
          have hden1 : ∀ c ∈ (noiseFilter fs).map Prod.snd,
              ∃ jc, denote fuel h c = some jc := hden
          obtain ⟨h2, hfold, hlen2, hagr2, hca2, hs2⟩ :=
            mutFold_ok fuel ih ((noiseFilter fs).map Prod.snd)
              h (h.set a (.nobj (noiseFilter fs))) n hden1 hge hlen1 hagr1 hca1 hset
          exact ⟨h2, by rw [mut_nobj hget]; exact hfold, hlen2, hagr2, hca2, hs2⟩

/-- **C9.** `_clean_textract_response` is pure with respect to its argument:
for every payload (any denotable root in a self-contained heap), the call
succeeds, the returned root lies in the freshly allocated region (the deep
copy) rather than in the original, and every value readable from the
original heap — in particular the argument itself — denotes exactly the same
JSON value after the call as before it. -/
theorem sanitizer_argument_unchanged (fuel : Nat) (h : Heap) (a : Nat) (j : Json)
    (hden : denote fuel h a = some j) (hcb : closedBelow h.length h) :
    ∃ h2 a1, cleanTextractHeap fuel h a = some (h2, a1)
      ∧ h.length ≤ a1
      ∧ (∀ (b : Nat) (jb : Json), denote fuel h b = some jb →
          denote fuel h2 b = some jb) := by
  obtain ⟨ext, a1, halloc, hna1, ha1lt, hca1, hd1⟩ :=
    alloc_ok j h h.length (le_refl _) (closedAbove_trivial h)
  have hdcopy : denote fuel (h ++ ext) a1 = some j := by
    cases fuel with
    | zero => simp [denote] at hden
    | succ f => exact hd1 f (denote_jdepth (f + 1) h a j hden)
  obtain ⟨h2, hmut, hlen2, hagr2, hca2, hs2⟩ :=
    removeFieldsMut_ok fuel (h ++ ext) a1 j h.length hdcopy hna1 hca1
  refine ⟨h2, a1, ?_, hna1, ?_⟩
  · rw [cleanTextractHeap, hden]
    show (match removeFieldsMut fuel (alloc j h).1 (alloc j h).2 with
      | none => none
      | some hh => some (hh, (alloc j h).2)) = some (h2, a1)
    rw [halloc]
    show (match removeFieldsMut fuel (h ++ ext) a1 with
      | none => none
      | some hh => some (hh, a1)) = some (h2, a1)
    rw [hmut]
  · intro b jb hb
    have hblt : b < h.length := by
      cases fuel with
      | zero => simp [denote] at hb
      | succ f =>
        cases hgetb : h[b]? with
        | none => rw [denote_none hgetb] at hb; cases hb
        | some nd => exact getElem?_some_lt hgetb
    have hagree : ∀ i, i < h.length → h2[i]? = h[i]? := by
      intro i hi
      rw [hagr2 i hi, getElem?_append_lt ext hi]
    exact denote_agree fuel h h2 h.length hcb hagree b jb hblt hb

/-- A small concrete argument heap: a mapping with one noise key and one
text key, pointing at a null and a string. -/
def egHeap : Heap := [.nobj [("Geometry", 1), ("Text", 2)], .nnull, .nstr "x"]

/-- Witness for C9 at the concrete heap. -/
theorem sanitizer_argument_unchanged_witness :
    ∃ h2 a1, cleanTextractHeap 3 egHeap 0 = some (h2, a1)
      ∧ egHeap.length ≤ a1
      ∧ (∀ (b : Nat) (jb : Json), denote 3 egHeap b = some jb →
          denote 3 h2 b = some jb) :=
  sanitizer_argument_unchanged 3 egHeap 0
    (.obj [("Geometry", .null), ("Text", .str "x")]) (by rfl)
    (by unfold closedBelow; decide)

end OcrEval
